import Mathlib

/-!
Verification of the PulseSync-UIKit addon-settings blueprint editor core:
the schema <-> blueprint-graph conversion (`schemaToBlueprintGraph`,
`blueprintGraphToSchema`), the pure graph-editing operations of the
blueprint editor provider, and the settings-accordion default-value
seeding.  JavaScript strings are embedded as `List Char`; JS numbers used
by this code (positions, sizes, slider parameters) are integers, embedded
as `Int`; JS `undefined?` fields become `Option`; an operation that either
invokes its `onChange` callback once with a new graph or returns without
invoking it is embedded as a function into `Option BlueprintGraph`.
-/

namespace PulseSync

/-- JS strings, embedded as lists of characters. -/
abbrev Str := List Char

/-- Coerce a Lean string literal to the embedded string type. -/
def str (s : String) : Str := s.data

/-- Decimal digit character for a single digit value (used by template
literals such as `section_3`). -/
def digitChar : Nat → Char
  | 0 => '0' | 1 => '1' | 2 => '2' | 3 => '3' | 4 => '4'
  | 5 => '5' | 6 => '6' | 7 => '7' | 8 => '8' | _ => '9'

/-- Fuel-driven decimal rendering of a natural number (most significant
digit first), mirroring JS number-to-string interpolation. -/
def natDigitsAux : Nat → Nat → List Char
  | 0, _ => []
  | fuel + 1, n =>
    if n < 10 then [digitChar n]
    else natDigitsAux fuel (n / 10) ++ [digitChar (n % 10)]

/-- Decimal digits of `n`, as written by a JS template literal. -/
def natDigits (n : Nat) : Str := natDigitsAux (n + 1) n

/-- Numeric value of one digit character. -/
def digitVal (c : Char) : Nat := c.toNat - 48

/-- Is this character an ASCII decimal digit (the regex class `\d`). -/
def isDig (c : Char) : Bool := 48 ≤ c.toNat && c.toNat ≤ 57

/-- Value of a digit string read left to right, as `parseInt` does. -/
def digitsVal (l : List Char) : Nat := l.foldl (fun a c => 10 * a + digitVal c) 0

/-- The positional section id `section_<k>` (source `sectionIdByIndex`). -/
def secId (k : Nat) : Str := str "section_" ++ natDigits k

/-- The regex match `^section_(\d+)$` followed by `parseInt`, from
`nextSectionId`: accept exactly `section_` followed by one or more
digits, returning the parsed number. -/
def parseSectionId : Str → Option Nat
  | 's' :: 'e' :: 'c' :: 't' :: 'i' :: 'o' :: 'n' :: '_' :: rest =>
    if rest ≠ [] ∧ rest.all isDig then some (digitsVal rest) else none
  | _ => none

/-- A 2D canvas position. -/
structure Pos where
  x : Int
  y : Int
deriving DecidableEq

/-- Layout constants from `constants.ts`. -/
def LAYOUT_START_X : Int := 48
/-- Layout constant from `blueprint-graph.ts`. -/
def LAYOUT_START_Y : Int := 32
/-- Section header height from `constants.ts`. -/
def SECTION_HEADER_H : Int := 56
/-- Item node height from `constants.ts`. -/
def ITEM_NODE_H : Int := 48
/-- Gap between a section header and its items, from `constants.ts`. -/
def GAP_SECTION_TO_ITEMS : Int := 20
/-- Gap between stacked items, from `constants.ts`. -/
def GAP_BETWEEN_ITEMS : Int := 14
/-- Gap between stacked sections, from `constants.ts`. -/
def GAP_BETWEEN_SECTIONS : Int := 40
/-- Horizontal indent of items beneath their section, from `constants.ts`. -/
def ITEM_INDENT_X : Int := 28

/-- Runtime setting value: `boolean | number | string`. -/
inductive SettingValue where
  | b (v : Bool)
  | n (v : Int)
  | s (v : Str)
deriving DecidableEq

/-- Button sub-item of a `text` item (`AddonSettingsButtonItem`). -/
structure AddonSettingsButtonItem where
  id : Str
  name : Option Str
  text : Option Str
  defaultParameter : Option Str
deriving DecidableEq

/-- An option of a `select` item (`AddonSettingsSelectOption`). -/
structure AddonSettingsSelectOption where
  value : Str
  label : Str
deriving DecidableEq

/-- A settings item.  The source is a TypeScript tagged union over the
discriminant string `type`; the runtime object carries whichever of the
variant fields are present, so the embedding is one record with the
common fields plus every optional variant field.  `defaultParameter` has
variant-dependent scalar type in the source and is embedded with the
scalar sum `SettingValue`. -/
structure AddonSettingsItem where
  id : Str
  name : Str
  description : Option Str
  order : Option Int
  type : Str
  buttons : Option (List AddonSettingsButtonItem)
  bool : Option Bool
  defaultParameter : Option SettingValue
  min : Option Int
  max : Option Int
  step : Option Int
  value : Option Int
  accept : Option Str
  options : Option (List AddonSettingsSelectOption)
deriving DecidableEq

/-- A section of the settings schema (`AddonSettingsSection`). -/
structure AddonSettingsSection where
  title : Str
  items : List AddonSettingsItem
deriving DecidableEq

/-- Discriminant of a node layout entry: `'section' | 'item'`. -/
inductive NodeType where
  | sec
  | item
deriving DecidableEq

/-- Stored position/metadata for a blueprint node (`AddonSettingsNodeLayout`). -/
structure AddonSettingsNodeLayout where
  id : Str
  type : NodeType
  position : Pos
  sectionId : Option Str
deriving DecidableEq

/-- Root schema shape (`AddonSettingsSchema`). -/
structure AddonSettingsSchema where
  sections : List AddonSettingsSection
  nodes : Option (List AddonSettingsNodeLayout)
deriving DecidableEq

/-- A section node of the blueprint graph (`BlueprintSectionNode`). -/
structure BlueprintSectionNode where
  id : Str
  title : Str
  position : Pos
deriving DecidableEq

/-- An item node of the blueprint graph (`BlueprintItemNode`). -/
structure BlueprintItemNode where
  id : Str
  sectionId : Str
  item : AddonSettingsItem
  position : Pos
deriving DecidableEq

/-- A blueprint graph node (`BlueprintNode`), a union of the two shapes. -/
inductive BlueprintNode where
  | sec (s : BlueprintSectionNode)
  | item (i : BlueprintItemNode)
deriving DecidableEq

/-- The blueprint graph (`BlueprintGraph`). -/
structure BlueprintGraph where
  nodes : List BlueprintNode
deriving DecidableEq

/-- The `id` field, defined on both node shapes. -/
def BlueprintNode.nodeId : BlueprintNode → Str
  | .sec s => s.id
  | .item i => i.id

/-- The `position` field, defined on both node shapes. -/
def BlueprintNode.nodePosition : BlueprintNode → Pos
  | .sec s => s.position
  | .item i => i.position

/-- The source's `n.type === 'section'` type-narrowing filter. -/
def BlueprintGraph.sectionNodes (g : BlueprintGraph) : List BlueprintSectionNode :=
  g.nodes.filterMap fun n => match n with
    | .sec s => some s
    | .item _ => none

/-- The source's `n.type === 'item'` type-narrowing filter. -/
def BlueprintGraph.itemNodes (g : BlueprintGraph) : List BlueprintItemNode :=
  g.nodes.filterMap fun n => match n with
    | .sec _ => none
    | .item i => some i

/-- A JS `Map<string, position>` recording every `set` in order; `get`
returns the most recent binding (last `set` wins). -/
abbrev PosMap := List (Str × Pos)

/-- `Map.get`: the value of the last `set` for the key, if any. -/
def mapGet (m : PosMap) (k : Str) : Option Pos :=
  (m.reverse.find? fun e => decide (e.1 = k)).map (·.2)

/-- The `savedPositions` map of `schemaToBlueprintGraph`: first every
persisted `NodeLayout` entry of the schema is `set`, then (overwriting on
equal ids) every node of the previous graph. -/
def savedPositionsOf (schema : AddonSettingsSchema) (previousGraph : Option BlueprintGraph) :
    PosMap :=
  (schema.nodes.getD []).map (fun nl => (nl.id, nl.position)) ++
    (match previousGraph with
     | none => []
     | some g => g.nodes.map fun n => (n.nodeId, n.nodePosition))

/-- The `map` over `normalizedItem.buttons`, giving each button with a
falsy (empty) id the synthesized id `<itemId>_btn_<index>`. -/
def normalizeButtons (itemId : Str) :
    List AddonSettingsButtonItem → Nat → List AddonSettingsButtonItem
  | [], _ => []
  | b :: bs, bi =>
    { b with id := if b.id = [] then itemId ++ str "_btn_" ++ natDigits bi else b.id } ::
      normalizeButtons itemId bs (bi + 1)

/-- The `normalizedItem` computation of `schemaToBlueprintGraph`: the item
with its resolved id, and, for a `text` item whose `buttons` field is
present (JS truthiness: an empty array is truthy), normalized button ids. -/
def normalizeItem (itemId : Str) (item : AddonSettingsItem) : AddonSettingsItem :=
  let it := { item with id := itemId }
  if it.type = str "text" ∧ it.buttons ≠ none then
    { it with buttons := it.buttons.map fun bs => normalizeButtons itemId bs 0 }
  else it

/-- The resolved node id of an item: `item.id || <sectionId>_item_<idx>`
(the empty string is the only falsy value of a JS string field). -/
def resolvedItemId (sectionId : Str) (item : AddonSettingsItem) (itemIdx : Nat) : Str :=
  if item.id = [] then sectionId ++ str "_item_" ++ natDigits itemIdx else item.id

/-- The inner `sec.items.forEach` loop of `schemaToBlueprintGraph`:
produces the item nodes of one section together with the final running
layout `y`. -/
def buildItemNodes (saved : PosMap) (sectionId : Str) :
    List AddonSettingsItem → Nat → Int → List BlueprintNode × Int
  | [], _, y => ([], y)
  | item :: rest, itemIdx, y =>
    let itemId := resolvedItemId sectionId item itemIdx
    let normalizedItem := normalizeItem itemId item
    let itemPosition := (mapGet saved itemId).getD ⟨LAYOUT_START_X + ITEM_INDENT_X, y⟩
    let next := buildItemNodes saved sectionId rest (itemIdx + 1)
      (y + ITEM_NODE_H + GAP_BETWEEN_ITEMS)
    (.item ⟨itemId, sectionId, normalizedItem, itemPosition⟩ :: next.1, next.2)

/-- The outer `schema.sections.forEach` loop of `schemaToBlueprintGraph`. -/
def buildSections (saved : PosMap) :
    List AddonSettingsSection → Nat → Int → List BlueprintNode
  | [], _, _ => []
  | s :: rest, secIdx, y =>
    let sectionId := secId secIdx
    let position := (mapGet saved sectionId).getD ⟨LAYOUT_START_X, y⟩
    let items := buildItemNodes saved sectionId s.items 0
      (y + SECTION_HEADER_H + GAP_SECTION_TO_ITEMS)
    .sec ⟨sectionId, s.title, position⟩ ::
      (items.1 ++ buildSections saved rest (secIdx + 1) (items.2 + GAP_BETWEEN_SECTIONS))

/-- `schemaToBlueprintGraph` from `blueprint-graph.ts`. -/
def schemaToBlueprintGraph (schema : AddonSettingsSchema)
    (previousGraph : Option BlueprintGraph) : BlueprintGraph :=
  ⟨buildSections (savedPositionsOf schema previousGraph) schema.sections 0 LAYOUT_START_Y⟩

/-- One step of a stable insertion sort by an integer key: insert before
the first element whose key is not smaller than the inserted one's. -/
def insertSortedBy {α : Type} (key : α → Int) (x : α) : List α → List α
  | [] => [x]
  | y :: ys => if key x ≤ key y then x :: y :: ys else y :: insertSortedBy key x ys

/-- Stable insertion sort by an integer key. -/
def stableSortBy {α : Type} (key : α → Int) (l : List α) : List α :=
  l.foldr (insertSortedBy key) []

/-- Sort key used by `blueprintGraphToSchema`: `(a.item.order ?? 0)`. -/
def orderKey (n : BlueprintItemNode) : Int := n.item.order.getD 0

/-- The JS `Array.prototype.sort` call with comparator
`(a, b) => (a.item.order ?? 0) - (b.item.order ?? 0)`.  JS `sort` is
specified to be stable, and a stable sort by a total preorder is unique,
so it is embedded as stable insertion sort by `orderKey`. -/
def sortByOrder (l : List BlueprintItemNode) : List BlueprintItemNode :=
  stableSortBy orderKey l

/-- `blueprintGraphToSchema` from `blueprint-graph.ts`. -/
def blueprintGraphToSchema (graph : BlueprintGraph) : AddonSettingsSchema :=
  let sectionNodes := graph.sectionNodes
  let itemNodes := graph.itemNodes
  let sectionIds := sectionNodes.map (·.id)
  let sections : List AddonSettingsSection := sectionNodes.map fun s =>
    { title := s.title
      items := (sortByOrder (itemNodes.filter fun it =>
          decide (it.sectionId = s.id ∧ it.sectionId ∈ sectionIds))).map (·.item) }
  let nodeLayouts : List AddonSettingsNodeLayout := graph.nodes.map fun n =>
    match n with
    | .sec s => ⟨s.id, .sec, s.position, none⟩
    | .item i => ⟨i.id, .item, i.position, if i.sectionId = [] then none else some i.sectionId⟩
  ⟨sections, some nodeLayouts⟩

/-- The `while (used.has(idx)) idx++` loop of `nextSectionId`, run with
enough fuel to reach the lowest free index. -/
def lowestFreeFrom (used : List Nat) : Nat → Nat → Nat
  | 0, idx => idx
  | fuel + 1, idx => if idx ∈ used then lowestFreeFrom used fuel (idx + 1) else idx

/-- The lowest natural number not in `used` (reached by the loop within
`used.length + 1` steps, by pigeonhole). -/
def lowestFree (used : List Nat) : Nat := lowestFreeFrom used (used.length + 1) 0

/-- `nextSectionId` from `BlueprintContextMenu.tsx`: parse every existing
section node id against `^section_(\d+)$` (in the source a failed match
contributes `-1`, which can never equal a candidate index and is dropped
here), then scan up from 0 for the first unused index. -/
def nextSectionId (graph : BlueprintGraph) : Str :=
  let used := graph.nodes.filterMap fun n => match n with
    | .sec s => parseSectionId s.id
    | .item _ => none
  secId (lowestFree used)

/-- `createEmptyItem` from `createDefault.ts`.  The source defaults the id
parameter to `item_${Date.now()}`; the id is taken as an argument here
(wall-clock time is environmental).  The `default` switch branch builds a
`button`-shaped item. -/
def createEmptyItem (ty : Str) (id : Str) : AddonSettingsItem :=
  let base : AddonSettingsItem :=
    { id := id, name := [], description := some [], order := none, type := ty
      buttons := none, bool := none, defaultParameter := none, min := none, max := none
      step := none, value := none, accept := none, options := none }
  if ty = str "text" then
    { base with buttons := some [] }
  else if ty = str "button" then
    { base with bool := some true, defaultParameter := some (.b true) }
  else if ty = str "slider" then
    { base with min := some 0, max := some 100, step := some 1, value := some 0
                defaultParameter := some (.n 0) }
  else if ty = str "file_picker" then
    { base with accept := some (str "*"), defaultParameter := some (.s []) }
  else if ty = str "color_picker" then
    { base with defaultParameter := some (.s (str "#ffffff")) }
  else if ty = str "select" then
    { base with options := some [⟨str "option1", str "Option 1"⟩]
                defaultParameter := some (.s (str "option1")) }
  else
    { base with type := str "button", bool := some true, defaultParameter := some (.b true) }

/-- `updateSectionTitle`: replace the title of the section node with the
given id. -/
def updateSectionTitle (graph : BlueprintGraph) (sectionId title : Str) : BlueprintGraph :=
  ⟨graph.nodes.map fun n => match n with
    | .sec s => if s.id = sectionId then .sec { s with title := title } else .sec s
    | .item i => .item i⟩

/-- `updateItem`: replace the item payload of the item node with the given
id. -/
def updateItem (graph : BlueprintGraph) (itemNodeId : Str)
    (item : AddonSettingsItem) : BlueprintGraph :=
  ⟨graph.nodes.map fun n => match n with
    | .sec s => .sec s
    | .item i => if i.id = itemNodeId then .item { i with item := item } else .item i⟩

/-- `addSectionAt`: append a new section node titled `New Section` with the
next free positional id. -/
def addSectionAt (graph : BlueprintGraph) (pos : Pos) : BlueprintGraph :=
  ⟨graph.nodes ++ [.sec ⟨nextSectionId graph, str "New Section", pos⟩]⟩

/-- `addItemToSection`: look up the target node by id (`find`); when it is
missing, return without invoking `onChange` (`none`); otherwise append a
new item node of the requested type below the last item of the section.
The source's `createEmptyItem` id default `item_${Date.now()}` is the
`newItemId` argument. -/
def addItemToSection (graph : BlueprintGraph) (sectionId : Str) (ty : Str)
    (newItemId : Str) : Option BlueprintGraph :=
  match graph.nodes.find? fun n => decide (n.nodeId = sectionId) with
  | none => none
  | some sec =>
    let newItem := createEmptyItem ty newItemId
    let itemNodesUnder := graph.itemNodes.filter fun n => decide (n.sectionId = sectionId)
    let lastY : Int :=
      match itemNodesUnder.map fun n => n.position.y with
      | [] => sec.nodePosition.y + SECTION_HEADER_H + GAP_SECTION_TO_ITEMS
      | y0 :: ys => ys.foldl max y0 + ITEM_NODE_H + GAP_BETWEEN_ITEMS
    some ⟨graph.nodes ++
      [.item ⟨newItem.id, sectionId, newItem, ⟨sec.nodePosition.x + ITEM_INDENT_X + 60, lastY⟩⟩]⟩

/-- `createItemAtDrop`: append a new item node of the requested type at the
given drop position. -/
def createItemAtDrop (graph : BlueprintGraph) (ty sectionId : Str) (pos : Pos)
    (newItemId : Str) : BlueprintGraph :=
  let newItem := createEmptyItem ty newItemId
  ⟨graph.nodes ++ [.item ⟨newItem.id, sectionId, newItem, pos⟩]⟩

/-- `attachItemToSection`: set the `sectionId` of the item node with the
given id. -/
def attachItemToSection (graph : BlueprintGraph) (sectionId itemNodeId : Str) :
    BlueprintGraph :=
  ⟨graph.nodes.map fun n => match n with
    | .sec s => .sec s
    | .item i => if i.id = itemNodeId then .item { i with sectionId := sectionId } else .item i⟩

/-- `deleteNode`: look up the node by id (`find`); when missing, return
without invoking `onChange` (`none`).  For a section node, filter out
every node whose id equals the target and every item node attached to the
target; for any other node, filter out every node whose id equals the
target. -/
def deleteNode (graph : BlueprintGraph) (nodeId : Str) : Option BlueprintGraph :=
  match graph.nodes.find? fun n => decide (n.nodeId = nodeId) with
  | none => none
  | some node =>
    match node with
    | .sec _ =>
      some ⟨graph.nodes.filter fun n =>
        decide (n.nodeId ≠ nodeId) &&
          (match n with
           | .sec _ => true
           | .item i => decide (i.sectionId ≠ nodeId))⟩
    | .item _ => some ⟨graph.nodes.filter fun n => decide (n.nodeId ≠ nodeId)⟩

/-- The id `item_${Date.now()}` generated by `duplicateItem`, with the
wall-clock millisecond count as an argument. -/
def dupId (now : Nat) : Str := str "item_" ++ natDigits now

/-- `duplicateItem`: append a clone of the given item node's payload under
a timestamp-derived id, attached to the same section, offset by (30, 40). -/
def duplicateItem (graph : BlueprintGraph) (itemN : BlueprintItemNode) (now : Nat) :
    BlueprintGraph :=
  let newItem := { itemN.item with id := dupId now }
  ⟨graph.nodes ++
    [.item ⟨newItem.id, itemN.sectionId, newItem, ⟨itemN.position.x + 30, itemN.position.y + 40⟩⟩]⟩

/-- `detachItem`: clear the `sectionId` of the item node whose id is the
given node's id. -/
def detachItem (graph : BlueprintGraph) (itemN : BlueprintItemNode) : BlueprintGraph :=
  ⟨graph.nodes.map fun n => match n with
    | .sec s => .sec s
    | .item i => if i.id = itemN.id then .item { i with sectionId := [] } else .item i⟩

/-- `detachItemById`: clear the `sectionId` of the item node with the given
id. -/
def detachItemById (graph : BlueprintGraph) (itemNodeId : Str) : BlueprintGraph :=
  ⟨graph.nodes.map fun n => match n with
    | .sec s => .sec s
    | .item i => if i.id = itemNodeId then .item { i with sectionId := [] } else .item i⟩

/-- `getDefaultValue` from `AddonSettingsAccordion.tsx`. -/
def getDefaultValue (item : AddonSettingsItem) : Option SettingValue :=
  if item.type = str "text" then
    let btn := item.buttons.bind List.head?
    some (.s ((btn.bind (·.defaultParameter) <|> btn.bind (·.text)).getD []))
  else if item.type = str "button" then
    some (item.defaultParameter.getD (.b true))
  else if item.type = str "slider" then
    some (match item.defaultParameter, item.value, item.min with
      | some v, _, _ => v
      | none, some v, _ => .n v
      | none, none, some m => .n m
      | none, none, none => .n 0)
  else if item.type = str "color_picker" then
    some (item.defaultParameter.getD (.s (str "#ffffff")))
  else if item.type = str "select" then
    some (item.defaultParameter.getD (.s []))
  else if item.type = str "file_picker" then
    some (.s [])
  else
    none

/-- The JS record update `initial[item.id] = v`: overwrite an existing
binding in place, otherwise append. -/
def setValue (m : List (Str × SettingValue)) (k : Str) (v : SettingValue) :
    List (Str × SettingValue) :=
  if m.any fun e => decide (e.1 = k) then
    m.map fun e => if e.1 = k then (k, v) else e
  else m ++ [(k, v)]

/-- Lookup in the seeded values record. -/
def lookupValue (m : List (Str × SettingValue)) (k : Str) : Option SettingValue :=
  (m.find? fun e => decide (e.1 = k)).map (·.2)

/-- The `useState` initializer of `AddonSettingsAccordion` (uncontrolled
mode): for every item of every section in order, store its default value
under its id when that default is defined. -/
def initialValues (schema : AddonSettingsSchema) : List (Str × SettingValue) :=
  (schema.sections.flatMap fun s => s.items).foldl
    (fun acc item =>
      match getDefaultValue item with
      | none => acc
      | some v => setValue acc item.id v)
    []

/-! Support lemmas: decimal rendering and section-id parsing. -/

lemma digitChar_val {n : Nat} (h : n < 10) : digitVal (digitChar n) = n := by
  interval_cases n <;> decide

lemma digitChar_isDig {n : Nat} (h : n < 10) : isDig (digitChar n) = true := by
  interval_cases n <;> decide

lemma natDigitsAux_irrel : ∀ f₁ f₂ n, n < f₁ → n < f₂ →
    natDigitsAux f₁ n = natDigitsAux f₂ n := by
  intro f₁
  induction f₁ with
  | zero => intro f₂ n h₁ h₂; omega
  | succ g ih =>
    intro f₂ n h₁ h₂
    cases f₂ with
    | zero => omega
    | succ f₂ =>
      simp only [natDigitsAux]
      by_cases h10 : n < 10
      · simp [h10]
      · have hdiv : n / 10 < n := Nat.div_lt_self (by omega) (by omega)
        simp only [h10, if_false]
        rw [ih f₂ (n / 10) (by omega) (by omega)]

lemma natDigits_eq (n : Nat) :
    natDigits n = if n < 10 then [digitChar n] else natDigits (n / 10) ++ [digitChar (n % 10)] := by
  show natDigitsAux (n + 1) n = _
  simp only [natDigitsAux]
  by_cases h10 : n < 10
  · simp [h10]
  · have hdiv : n / 10 < n := Nat.div_lt_self (by omega) (by omega)
    simp only [h10, if_false]
    rw [natDigitsAux_irrel n (n / 10 + 1) (n / 10) (by omega) (by omega)]
    rfl

lemma natDigits_ne_nil (n : Nat) : natDigits n ≠ [] := by
  rw [natDigits_eq]
  by_cases h10 : n < 10 <;> simp [h10]

lemma natDigits_all_isDig (n : Nat) : (natDigits n).all isDig = true := by
  induction n using Nat.strong_induction_on with
  | _ n ih =>
    rw [natDigits_eq]
    by_cases h10 : n < 10
    · simp [h10, digitChar_isDig h10]
    · have hdiv : n / 10 < n := Nat.div_lt_self (by omega) (by omega)
      simp [h10, List.all_append, ih (n / 10) hdiv,
        digitChar_isDig (Nat.mod_lt n (by omega))]

lemma digitsVal_append (l : List Char) (c : Char) :
    digitsVal (l ++ [c]) = 10 * digitsVal l + digitVal c := by
  simp [digitsVal, List.foldl_append]

lemma digitsVal_natDigits : ∀ n, digitsVal (natDigits n) = n := by
  intro n
  induction n using Nat.strong_induction_on with
  | _ n ih =>
    rw [natDigits_eq]
    by_cases h10 : n < 10
    · simpa [h10, digitsVal] using digitChar_val h10
    · have hdiv : n / 10 < n := Nat.div_lt_self (by omega) (by omega)
      rw [if_neg h10, digitsVal_append, ih (n / 10) hdiv,
        digitChar_val (Nat.mod_lt n (by omega))]
      omega

lemma natDigits_inj {a b : Nat} (h : natDigits a = natDigits b) : a = b := by
  have := digitsVal_natDigits a
  rw [h, digitsVal_natDigits] at this
  omega

lemma parseSectionId_secId (n : Nat) : parseSectionId (secId n) = some n := by
  have h1 : secId n = 's' :: 'e' :: 'c' :: 't' :: 'i' :: 'o' :: 'n' :: '_' :: natDigits n := rfl
  rw [h1]
  show (if natDigits n ≠ [] ∧ (natDigits n).all isDig then some (digitsVal (natDigits n)) else none) = some n
  rw [if_pos ⟨natDigits_ne_nil n, natDigits_all_isDig n⟩, digitsVal_natDigits]

lemma secId_inj {a b : Nat} (h : secId a = secId b) : a = b :=
  natDigits_inj (by simpa [secId, str] using h)

/-! Support lemmas: the stable sort used by `blueprintGraphToSchema`. -/

section StableSortLemmas

variable {α : Type} (key : α → Int)

lemma mem_insertSortedBy {z x : α} :
    ∀ {l}, z ∈ insertSortedBy key x l ↔ z = x ∨ z ∈ l := by
  intro l
  induction l with
  | nil => simp [insertSortedBy]
  | cons y ys ih =>
    rw [insertSortedBy]
    by_cases hxy : key x ≤ key y
    · simp [hxy]
    · simp only [hxy, if_false, List.mem_cons, ih]
      tauto

lemma insertSortedBy_pairwise {x : α} :
    ∀ {l}, l.Pairwise (fun a b => key a ≤ key b) →
      (insertSortedBy key x l).Pairwise (fun a b => key a ≤ key b) := by
  intro l
  induction l with
  | nil => simp [insertSortedBy]
  | cons y ys ih =>
    intro h
    rw [List.pairwise_cons] at h
    rw [insertSortedBy]
    by_cases hxy : key x ≤ key y
    · rw [if_pos hxy, List.pairwise_cons]
      refine ⟨?_, List.pairwise_cons.mpr h⟩
      intro z hz
      rcases List.mem_cons.mp hz with rfl | hz
      · exact hxy
      · exact le_trans hxy (h.1 z hz)
    · rw [if_neg hxy, List.pairwise_cons]
      refine ⟨?_, ih h.2⟩
      intro z hz
      rcases (mem_insertSortedBy key).mp hz with rfl | hz
      · omega
      · exact h.1 z hz

lemma stableSortBy_pairwise (l : List α) :
    (stableSortBy key l).Pairwise (fun a b => key a ≤ key b) := by
  induction l with
  | nil => exact List.Pairwise.nil
  | cons a l ih => exact insertSortedBy_pairwise key ih

lemma insertSortedBy_perm (x : α) :
    ∀ l, List.Perm (insertSortedBy key x l) (x :: l) := by
  intro l
  induction l with
  | nil => exact List.Perm.refl _
  | cons y ys ih =>
    rw [insertSortedBy]
    by_cases hxy : key x ≤ key y
    · rw [if_pos hxy]
    · rw [if_neg hxy]
      exact ((ih.cons y).trans (List.Perm.swap x y ys))

lemma stableSortBy_perm (l : List α) : List.Perm (stableSortBy key l) l := by
  induction l with
  | nil => exact List.Perm.refl _
  | cons a l ih => exact (insertSortedBy_perm key a (stableSortBy key l)).trans (ih.cons a)

lemma insertSortedBy_filter_key (x : α) (q : Int) :
    ∀ l, (insertSortedBy key x l).filter (fun n => decide (key n = q)) =
      if key x = q then x :: l.filter (fun n => decide (key n = q))
      else l.filter (fun n => decide (key n = q)) := by
  intro l
  induction l with
  | nil => by_cases hq : key x = q <;> simp [insertSortedBy, hq]
  | cons y ys ih =>
    rw [insertSortedBy]
    by_cases hxy : key x ≤ key y
    · rw [if_pos hxy]
      by_cases hq : key x = q <;> simp [List.filter_cons, hq]
    · rw [if_neg hxy]
      by_cases hq : key x = q
      · have hyq : key y ≠ q := by omega
        simp [List.filter_cons, hq, hyq, ih]
      · simp [List.filter_cons, hq, ih]

lemma stableSortBy_filter_key (l : List α) (q : Int) :
    (stableSortBy key l).filter (fun n => decide (key n = q)) =
      l.filter (fun n => decide (key n = q)) := by
  induction l with
  | nil => rfl
  | cons a l ih =>
    show (insertSortedBy key a (stableSortBy key l)).filter _ = _
    rw [insertSortedBy_filter_key, List.filter_cons]
    by_cases hq : key a = q <;> simp [hq, ih]

lemma stableSortBy_of_pairwise :
    ∀ {l : List α}, l.Pairwise (fun a b => key a ≤ key b) → stableSortBy key l = l := by
  intro l
  induction l with
  | nil => intro; rfl
  | cons a l ih =>
    intro h
    rw [List.pairwise_cons] at h
    show insertSortedBy key a (stableSortBy key l) = a :: l
    rw [ih h.2]
    cases l with
    | nil => rfl
    | cons y ys => rw [insertSortedBy, if_pos (h.1 y (List.mem_cons_self y ys))]

lemma insertSortedBy_map {β : Type} (keyb : β → Int) (f : α → β)
    (hkey : ∀ a, keyb (f a) = key a) (x : α) :
    ∀ l, (insertSortedBy key x l).map f = insertSortedBy keyb (f x) (l.map f) := by
  intro l
  induction l with
  | nil => rfl
  | cons y ys ih =>
    rw [insertSortedBy, List.map_cons, insertSortedBy, hkey, hkey]
    by_cases hxy : key x ≤ key y
    · rw [if_pos hxy, if_pos hxy, List.map_cons, List.map_cons]
    · rw [if_neg hxy, if_neg hxy, List.map_cons, ih]

lemma stableSortBy_map {β : Type} (keyb : β → Int) (f : α → β)
    (hkey : ∀ a, keyb (f a) = key a) :
    ∀ l, (stableSortBy key l).map f = stableSortBy keyb (l.map f) := by
  intro l
  induction l with
  | nil => rfl
  | cons a l ih =>
    show (insertSortedBy key a (stableSortBy key l)).map f = _
    rw [insertSortedBy_map key keyb f hkey, ih]
    rfl

end StableSortLemmas

lemma sortByOrder_pairwise (l : List BlueprintItemNode) :
    (sortByOrder l).Pairwise (fun a b => orderKey a ≤ orderKey b) :=
  stableSortBy_pairwise orderKey l

lemma sortByOrder_perm (l : List BlueprintItemNode) : List.Perm (sortByOrder l) l :=
  stableSortBy_perm orderKey l

lemma sortByOrder_filter_key (l : List BlueprintItemNode) (q : Int) :
    (sortByOrder l).filter (fun n => decide (orderKey n = q)) =
      l.filter (fun n => decide (orderKey n = q)) :=
  stableSortBy_filter_key orderKey l q

lemma sortByOrder_of_pairwise {l : List BlueprintItemNode}
    (h : l.Pairwise (fun a b => orderKey a ≤ orderKey b)) : sortByOrder l = l :=
  stableSortBy_of_pairwise orderKey h

/-! Support lemmas: the saved-positions map. -/

lemma mapGet_nil (k : Str) : mapGet [] k = none := rfl

lemma mapGet_append (m₁ m₂ : PosMap) (k : Str) :
    mapGet (m₁ ++ m₂) k = (mapGet m₂ k).orElse fun _ => mapGet m₁ k := by
  simp only [mapGet, List.reverse_append, List.find?_append]
  cases m₂.reverse.find? fun e => decide (e.1 = k) <;> simp [Option.orElse]

lemma find?_key_of_nodup :
    ∀ {m : PosMap}, (m.map (·.1)).Nodup → ∀ {k v}, (k, v) ∈ m →
      (m.find? fun e => decide (e.1 = k)) = some (k, v) := by
  intro m
  induction m with
  | nil => intro _ k v h; simp at h
  | cons e m ih =>
    intro hnd k v hmem
    rw [List.map_cons, List.nodup_cons] at hnd
    rcases List.mem_cons.mp hmem with rfl | hmem
    · simp [List.find?]
    · have hk : e.1 ≠ k := by
        intro he
        exact hnd.1 (he ▸ List.mem_map_of_mem (·.1) hmem)
      rw [List.find?]
      simp only [hk, decide_False]
      exact ih hnd.2 hmem

lemma mapGet_of_nodup {m : PosMap} (hnd : (m.map (·.1)).Nodup) {k : Str} {v : Pos}
    (hmem : (k, v) ∈ m) : mapGet m k = some v := by
  have hnd' : (m.reverse.map (·.1)).Nodup := by
    rw [List.map_reverse]
    exact List.nodup_reverse.mpr hnd
  rw [mapGet, find?_key_of_nodup hnd' (List.mem_reverse.mpr hmem)]
  rfl

/-! Support lemmas: the seeded values record of the accordion. -/

lemma lookupValue_setValue_other {k k' : Str} (hne : k' ≠ k) (v : SettingValue) :
    ∀ m, lookupValue (setValue m k v) k' = lookupValue m k' := by
  have hkk : ¬ k = k' := fun h => hne h.symm
  have hmap : ∀ m : List (Str × SettingValue),
      lookupValue (m.map fun e => if e.1 = k then (k, v) else e) k' = lookupValue m k' := by
    intro m
    induction m with
    | nil => rfl
    | cons e m ih =>
      by_cases he : e.1 = k
      · simp only [List.map_cons, if_pos he, lookupValue, List.find?]
        have h₁ : decide ((k, v).1 = k') = false := by simp [hkk]
        have h₂ : decide (e.1 = k') = false := by simp [he, hkk]
        rw [h₁, h₂]
        exact ih
      · simp only [List.map_cons, if_neg he, lookupValue, List.find?]
        cases hd : decide (e.1 = k')
        · exact ih
        · rfl
  intro m
  rw [setValue]
  by_cases hany : m.any fun e => decide (e.1 = k)
  · rw [if_pos hany]
    exact hmap m
  · rw [if_neg hany]
    simp only [lookupValue, List.find?_append]
    have h₃ : (([(k, v)]).find? fun e => decide (e.1 = k')) = none := by
      simp [hkk]
    cases hf : m.find? fun e => decide (e.1 = k') <;> simp [h₃, hf]

lemma lookupValue_setValue_self (k : Str) (v : SettingValue) :
    ∀ m, lookupValue (setValue m k v) k = some v := by
  intro m
  rw [setValue]
  by_cases hany : m.any fun e => decide (e.1 = k)
  · rw [if_pos hany]
    induction m with
    | nil => simp at hany
    | cons e m ih =>
      by_cases he : e.1 = k
      · simp [lookupValue, List.find?, he]
      · simp only [List.any_cons, he, decide_False, Bool.false_or] at hany
        simp only [List.map_cons, if_neg he, lookupValue, List.find?]
        have h₂ : decide (e.1 = k) = false := by simp [he]
        rw [h₂]
        exact ih hany
  · rw [if_neg hany]
    simp only [List.any_eq_true, not_exists, not_and] at hany
    have hm : (m.find? fun e => decide (e.1 = k)) = none := by
      rw [List.find?_eq_none]
      intro e he
      simpa using fun h => (by simpa [h] using hany e he)
    simp [lookupValue, List.find?_append, hm, List.find?]

/-- One fold step of the accordion's seeding loop. -/
def seedStep (acc : List (Str × SettingValue)) (item : AddonSettingsItem) :
    List (Str × SettingValue) :=
  match getDefaultValue item with
  | none => acc
  | some v => setValue acc item.id v

lemma initialValues_eq_foldl (schema : AddonSettingsSchema) :
    initialValues schema = (schema.sections.flatMap fun s => s.items).foldl seedStep [] := rfl

lemma lookupValue_foldl_of_notmem {k : Str} :
    ∀ (items : List AddonSettingsItem) acc, (∀ it ∈ items, it.id ≠ k) →
      lookupValue (items.foldl seedStep acc) k = lookupValue acc k := by
  intro items
  induction items with
  | nil => intro acc _; rfl
  | cons it items ih =>
    intro acc h
    rw [List.foldl_cons]
    rw [ih (seedStep acc it) fun x hx => h x (List.mem_cons_of_mem it hx)]
    rw [seedStep]
    cases hd : getDefaultValue it
    · rfl
    · exact lookupValue_setValue_other (fun he => h it (List.mem_cons_self it items) he.symm) _ acc

lemma lookupValue_initialValues (schema : AddonSettingsSchema)
    (hnd : (((schema.sections.flatMap fun s => s.items)).map (·.id)).Nodup)
    {it : AddonSettingsItem} (hit : it ∈ schema.sections.flatMap fun s => s.items) :
    lookupValue (initialValues schema) it.id = getDefaultValue it := by
  obtain ⟨pre, post, hsplit⟩ := List.append_of_mem hit
  have hnd' := hnd
  rw [hsplit, List.map_append, List.map_cons] at hnd'
  obtain ⟨hpre, hconspost, hdisj⟩ := List.nodup_append.mp hnd'
  have hpreids : ∀ it' ∈ pre, it'.id ≠ it.id := by
    intro it' hmem heq
    exact hdisj (List.mem_map_of_mem _ hmem) (by rw [heq]; exact List.mem_cons_self _ _)
  have hpostids : ∀ it' ∈ post, it'.id ≠ it.id := by
    intro it' hmem heq
    exact (List.nodup_cons.mp hconspost).1 (by rw [← heq]; exact List.mem_map_of_mem _ hmem)
  rw [initialValues_eq_foldl, hsplit, List.foldl_append, List.foldl_cons]
  rw [lookupValue_foldl_of_notmem post _ hpostids]
  rw [seedStep]
  cases hd : getDefaultValue it with
  | none => rw [lookupValue_foldl_of_notmem pre _ hpreids]; rfl
  | some v => exact lookupValue_setValue_self it.id v _

/-- A minimal concrete settings item, used in the concrete instances below. -/
def sampleItem (id ty : Str) (ord : Option Int) : AddonSettingsItem :=
  { id := id, name := str "n", description := none, order := ord, type := ty
    buttons := none, bool := none, defaultParameter := none, min := none, max := none
    step := none, value := none, accept := none, options := none }

/-- Claim C10: for every graph and every id that matches no node of that
graph, `addItemToSection` with that id as target section and `deleteNode`
with that id both return without invoking the `onChange` callback
(embedded as `none`), so the graph state is unchanged and no error is
raised. -/
theorem missing_target_is_noop (g : BlueprintGraph) (tid ty newId : Str)
    (h : ∀ n ∈ g.nodes, n.nodeId ≠ tid) :
    addItemToSection g tid ty newId = none ∧ deleteNode g tid = none := by
  have hfind : (g.nodes.find? fun n => decide (n.nodeId = tid)) = none := by
    rw [List.find?_eq_none]
    intro n hn
    simpa using h n hn
  constructor
  · simp [addItemToSection, hfind]
  · simp [deleteNode, hfind]

/-- Witness for the claim C10 theorem at a concrete graph and id. -/
theorem missing_target_is_noop_witness :
    addItemToSection ⟨[.sec ⟨str "section_0", str "T", ⟨0, 0⟩⟩]⟩ (str "zzz")
        (str "button") (str "i") = none ∧
      deleteNode ⟨[.sec ⟨str "section_0", str "T", ⟨0, 0⟩⟩]⟩ (str "zzz") = none :=
  missing_target_is_noop ⟨[.sec ⟨str "section_0", str "T", ⟨0, 0⟩⟩]⟩ (str "zzz")
    (str "button") (str "i") (by decide)

/-- Claim C9: in uncontrolled use the accordion seeds its internal values
map so that, for every item of the schema (item ids unique, per the data
model invariant), the seeded value follows the per-type default
resolution — text: first button's `defaultParameter`, else its `text`,
else empty; toggle (`button`): `defaultParameter`, else `true`; slider:
`defaultParameter`, else `value`, else `min`; `color_picker`:
`defaultParameter`, else `#ffffff`; `select`: `defaultParameter`, else
empty; `file_picker`: empty — and an unrecognized item type contributes
no entry. -/
theorem accordion_default_seeding (schema : AddonSettingsSchema)
    (hnd : (((schema.sections.flatMap fun s => s.items)).map (·.id)).Nodup)
    (sec : AddonSettingsSection) (it : AddonSettingsItem)
    (hsec : sec ∈ schema.sections) (hit : it ∈ sec.items) :
    (it.type = str "text" →
      (∀ b bs, it.buttons = some (b :: bs) →
        (∀ d, b.defaultParameter = some d →
          lookupValue (initialValues schema) it.id = some (.s d)) ∧
        (b.defaultParameter = none → ∀ t, b.text = some t →
          lookupValue (initialValues schema) it.id = some (.s t)) ∧
        (b.defaultParameter = none → b.text = none →
          lookupValue (initialValues schema) it.id = some (.s []))) ∧
      ((it.buttons = none ∨ it.buttons = some []) →
        lookupValue (initialValues schema) it.id = some (.s []))) ∧
    (it.type = str "button" →
      (∀ v, it.defaultParameter = some v →
        lookupValue (initialValues schema) it.id = some v) ∧
      (it.defaultParameter = none →
        lookupValue (initialValues schema) it.id = some (.b true))) ∧
    (it.type = str "slider" →
      (∀ v, it.defaultParameter = some v →
        lookupValue (initialValues schema) it.id = some v) ∧
      (it.defaultParameter = none → ∀ v, it.value = some v →
        lookupValue (initialValues schema) it.id = some (.n v)) ∧
      (it.defaultParameter = none → it.value = none → ∀ m, it.min = some m →
        lookupValue (initialValues schema) it.id = some (.n m))) ∧
    (it.type = str "color_picker" →
      (∀ v, it.defaultParameter = some v →
        lookupValue (initialValues schema) it.id = some v) ∧
      (it.defaultParameter = none →
        lookupValue (initialValues schema) it.id = some (.s (str "#ffffff")))) ∧
    (it.type = str "select" →
      (∀ v, it.defaultParameter = some v →
        lookupValue (initialValues schema) it.id = some v) ∧
      (it.defaultParameter = none →
        lookupValue (initialValues schema) it.id = some (.s []))) ∧
    (it.type = str "file_picker" →
      lookupValue (initialValues schema) it.id = some (.s [])) ∧
    (it.type ∉ [str "text", str "button", str "slider", str "color_picker",
        str "select", str "file_picker"] →
      lookupValue (initialValues schema) it.id = none) := by
  have hflat : it ∈ schema.sections.flatMap fun s => s.items :=
    List.mem_flatMap.mpr ⟨sec, hsec, hit⟩
  rw [lookupValue_initialValues schema hnd hflat]
  refine ⟨?_, ?_, ?_, ?_, ?_, ?_, ?_⟩
  · intro hty
    constructor
    · intro b bs hb
      refine ⟨?_, ?_, ?_⟩
      · intro d hd
        simp [getDefaultValue, hty, hb, hd]
      · intro hd t ht
        simp [getDefaultValue, hty, hb, hd, ht]
      · intro hd ht
        simp [getDefaultValue, hty, hb, hd, ht]
    · rintro (hb | hb) <;> simp [getDefaultValue, hty, hb]
  · intro hty
    have h₁ : ¬ it.type = str "text" := by rw [hty]; decide
    constructor
    · intro v hv
      simp only [getDefaultValue]
      rw [if_neg h₁, if_pos hty, hv]
      rfl
    · intro hv
      simp only [getDefaultValue]
      rw [if_neg h₁, if_pos hty, hv]
      rfl
  · intro hty
    have h₁ : ¬ it.type = str "text" := by rw [hty]; decide
    have h₂ : ¬ it.type = str "button" := by rw [hty]; decide
    refine ⟨?_, ?_, ?_⟩
    · intro v hv
      simp only [getDefaultValue]
      rw [if_neg h₁, if_neg h₂, if_pos hty, hv]
    · intro hdp v hv
      simp only [getDefaultValue]
      rw [if_neg h₁, if_neg h₂, if_pos hty, hdp, hv]
    · intro hdp hv m hm
      simp only [getDefaultValue]
      rw [if_neg h₁, if_neg h₂, if_pos hty, hdp, hv, hm]
  · intro hty
    have h₁ : ¬ it.type = str "text" := by rw [hty]; decide
    have h₂ : ¬ it.type = str "button" := by rw [hty]; decide
    have h₃ : ¬ it.type = str "slider" := by rw [hty]; decide
    constructor
    · intro v hv
      simp only [getDefaultValue]
      rw [if_neg h₁, if_neg h₂, if_neg h₃, if_pos hty, hv]
      rfl
    · intro hv
      simp only [getDefaultValue]
      rw [if_neg h₁, if_neg h₂, if_neg h₃, if_pos hty, hv]
      rfl
  · intro hty
    have h₁ : ¬ it.type = str "text" := by rw [hty]; decide
    have h₂ : ¬ it.type = str "button" := by rw [hty]; decide
    have h₃ : ¬ it.type = str "slider" := by rw [hty]; decide
    have h₄ : ¬ it.type = str "color_picker" := by rw [hty]; decide
    constructor
    · intro v hv
      simp only [getDefaultValue]
      rw [if_neg h₁, if_neg h₂, if_neg h₃, if_neg h₄, if_pos hty, hv]
      rfl
    · intro hv
      simp only [getDefaultValue]
      rw [if_neg h₁, if_neg h₂, if_neg h₃, if_neg h₄, if_pos hty, hv]
      rfl
  · intro hty
    have h₁ : ¬ it.type = str "text" := by rw [hty]; decide
    have h₂ : ¬ it.type = str "button" := by rw [hty]; decide
    have h₃ : ¬ it.type = str "slider" := by rw [hty]; decide
    have h₄ : ¬ it.type = str "color_picker" := by rw [hty]; decide
    have h₅ : ¬ it.type = str "select" := by rw [hty]; decide
    simp only [getDefaultValue]
    rw [if_neg h₁, if_neg h₂, if_neg h₃, if_neg h₄, if_neg h₅, if_pos hty]
  · intro hnotin
    simp only [List.mem_cons, List.not_mem_nil, or_false, not_or] at hnotin
    obtain ⟨h₁, h₂, h₃, h₄, h₅, h₆⟩ := hnotin
    simp only [getDefaultValue]
    rw [if_neg h₁, if_neg h₂, if_neg h₃, if_neg h₄, if_neg h₅, if_neg h₆]

/-- Witness for the claim C9 theorem: a slider with no `defaultParameter`
and no `value` seeds its `min`. -/
theorem accordion_default_seeding_witness :
    lookupValue
      (initialValues ⟨[⟨str "S",
        [{ sampleItem (str "x") (str "slider") none with min := some 3 }]⟩], none⟩)
      (str "x") = some (.n 3) :=
  ((accordion_default_seeding
      ⟨[⟨str "S", [{ sampleItem (str "x") (str "slider") none with min := some 3 }]⟩], none⟩
      (by decide)
      ⟨str "S", [{ sampleItem (str "x") (str "slider") none with min := some 3 }]⟩
      { sampleItem (str "x") (str "slider") none with min := some 3 }
      (by decide) (by decide)).2.2.1 rfl).2.2 rfl rfl 3 rfl

/-- Is this node an item node carrying the given id? -/
def BlueprintNode.isItemWithId (n : BlueprintNode) (iid : Str) : Bool :=
  match n with
  | .sec _ => false
  | .item i => decide (i.id = iid)

/-- Concrete item node fixture. -/
def itemNodeW : BlueprintItemNode :=
  ⟨str "a", str "section_0", sampleItem (str "a") (str "button") none, ⟨7, 8⟩⟩

/-- Concrete graph fixture: one section with one attached item. -/
def graphW : BlueprintGraph :=
  ⟨[.sec ⟨str "section_0", str "T", ⟨0, 0⟩⟩, .item itemNodeW]⟩

/-- Claim C6: detaching an item node (by node or by id) replaces exactly
that node by the same node with empty `sectionId` — id, item payload and
position unchanged, every other node unchanged, node count unchanged —
and attaching replaces exactly that node by the same node with the target
`sectionId`.  Stated for an item node whose id no other item node shares
(item-node ids are unique by the stated data-model invariant). -/
theorem detach_attach_frame (g : BlueprintGraph) (iid sid tgt : Str)
    (it : AddonSettingsItem) (p : Pos)
    (hmem : BlueprintNode.item ⟨iid, sid, it, p⟩ ∈ g.nodes)
    (huniq : ∀ n ∈ g.nodes, n.isItemWithId iid = true → n = .item ⟨iid, sid, it, p⟩) :
    (detachItemById g iid).nodes =
      g.nodes.map (fun n =>
        if n = .item ⟨iid, sid, it, p⟩ then .item ⟨iid, [], it, p⟩ else n) ∧
    (detachItem g ⟨iid, sid, it, p⟩).nodes =
      g.nodes.map (fun n =>
        if n = .item ⟨iid, sid, it, p⟩ then .item ⟨iid, [], it, p⟩ else n) ∧
    (attachItemToSection g tgt iid).nodes =
      g.nodes.map (fun n =>
        if n = .item ⟨iid, sid, it, p⟩ then .item ⟨iid, tgt, it, p⟩ else n) ∧
    (detachItemById g iid).nodes.length = g.nodes.length ∧
    (attachItemToSection g tgt iid).nodes.length = g.nodes.length := by
  have key : ∀ (newSid : Str) (n : BlueprintNode), n ∈ g.nodes →
      (match n with
        | .sec s => BlueprintNode.sec s
        | .item i => if i.id = iid then .item { i with sectionId := newSid } else .item i) =
      (if n = .item ⟨iid, sid, it, p⟩ then .item ⟨iid, newSid, it, p⟩ else n) := by
    intro newSid n hn
    match n with
    | .sec s =>
      have : ¬ (BlueprintNode.sec s = .item ⟨iid, sid, it, p⟩) := by simp
      rw [if_neg this]
    | .item i =>
      by_cases hid : i.id = iid
      · have hi : BlueprintNode.item i = .item ⟨iid, sid, it, p⟩ :=
          huniq (.item i) hn (by simp [BlueprintNode.isItemWithId, hid])
        injection hi with hi'
        subst hi'
        simp
      · have : ¬ (BlueprintNode.item i = .item ⟨iid, sid, it, p⟩) := by
          intro h
          injection h with h'
          exact hid (by rw [h'])
        rw [if_neg this]
        simp [hid]
  refine ⟨?_, ?_, ?_, ?_, ?_⟩
  · exact List.map_congr_left (key [])
  · exact List.map_congr_left (key [])
  · exact List.map_congr_left (key tgt)
  · exact List.length_map _ _
  · exact List.length_map _ _

/-- Witness for the claim C6 theorem: detaching the item of `graphW`
clears its `sectionId` and keeps everything else. -/
theorem detach_attach_frame_witness :
    (detachItemById graphW (str "a")).nodes =
      graphW.nodes.map (fun n =>
        if n = .item itemNodeW then
          .item ⟨str "a", [], sampleItem (str "a") (str "button") none, ⟨7, 8⟩⟩
        else n) ∧
    (detachItemById graphW (str "a")).nodes.length = graphW.nodes.length :=
  ⟨(detach_attach_frame graphW (str "a") (str "section_0") (str "s2")
      (sampleItem (str "a") (str "button") none) ⟨7, 8⟩ (by decide) (by decide)).1,
   (detach_attach_frame graphW (str "a") (str "section_0") (str "s2")
      (sampleItem (str "a") (str "button") none) ⟨7, 8⟩ (by decide) (by decide)).2.2.2.1⟩

/-- Counterexample to claim C8 as stated: the duplicate id comes from the
wall clock (`item_${Date.now()}`), so two duplications with the same
timestamp produce two nodes with the same id — the freshly generated id
is not distinct from every id already present in the graph across
repeated duplications. -/
theorem duplicate_id_collision :
    ((duplicateItem (duplicateItem graphW itemNodeW 5) itemNodeW 5).nodes.map
        BlueprintNode.nodeId) =
      [str "section_0", str "a", str "item_5", str "item_5"] ∧
    ¬ (((duplicateItem (duplicateItem graphW itemNodeW 5) itemNodeW 5).nodes.map
        BlueprintNode.nodeId).Nodup) := by
  constructor
  · decide
  · decide

/-- Claim C8 amended: `duplicateItem` appends exactly one new item node
whose id is `item_<timestamp>`, whose item payload equals the original's
except for that id, whose `sectionId` equals the original's, and whose
position is the original's offset by the fixed delta (30, 40); the
original node and all other nodes are unchanged.  The generated id is
fresh only when no existing node already carries `item_<timestamp>`
(repeated duplication within one timestamp collides). -/
theorem duplicateItem_spec (g : BlueprintGraph) (itemN : BlueprintItemNode) (now : Nat) :
    (duplicateItem g itemN now).nodes =
      g.nodes ++ [.item ⟨dupId now, itemN.sectionId, { itemN.item with id := dupId now },
        ⟨itemN.position.x + 30, itemN.position.y + 40⟩⟩] ∧
    { ({ itemN.item with id := dupId now } : AddonSettingsItem) with
        id := itemN.item.id } = itemN.item ∧
    (dupId now ∉ g.nodes.map BlueprintNode.nodeId →
      (g.nodes.map BlueprintNode.nodeId).Nodup →
      ((duplicateItem g itemN now).nodes.map BlueprintNode.nodeId).Nodup) := by
  refine ⟨rfl, rfl, ?_⟩
  intro hfresh hnd
  have : (duplicateItem g itemN now).nodes.map BlueprintNode.nodeId =
      g.nodes.map BlueprintNode.nodeId ++ [dupId now] := by
    simp [duplicateItem, BlueprintNode.nodeId]
  rw [this, List.nodup_append]
  refine ⟨hnd, List.nodup_singleton _, ?_⟩
  intro a ha hb
  rw [List.mem_singleton] at hb
  exact hfresh (hb ▸ ha)

/-- Witness for the claim C8 theorem: duplicating the item of `graphW`
once with timestamp 5 keeps the node ids duplicate-free. -/
theorem duplicateItem_spec_witness :
    ((duplicateItem graphW itemNodeW 5).nodes.map BlueprintNode.nodeId).Nodup :=
  (duplicateItem_spec graphW itemNodeW 5).2.2 (by decide) (by decide)

/-! Support lemmas: node lookup by id in graphs with duplicate-free ids. -/

lemma find?_nodeId_of_nodup :
    ∀ {l : List BlueprintNode}, (l.map BlueprintNode.nodeId).Nodup →
      ∀ {n}, n ∈ l → (l.find? fun m => decide (m.nodeId = n.nodeId)) = some n := by
  intro l
  induction l with
  | nil => intro _ n h; simp at h
  | cons e l ih =>
    intro hnd n hmem
    rw [List.map_cons, List.nodup_cons] at hnd
    rcases List.mem_cons.mp hmem with rfl | hmem
    · simp [List.find?]
    · have hk : e.nodeId ≠ n.nodeId := by
        intro he
        exact hnd.1 (he ▸ List.mem_map_of_mem BlueprintNode.nodeId hmem)
      rw [List.find?]
      simp only [hk, decide_False]
      exact ih hnd.2 hmem

lemma nodeId_injOn {l : List BlueprintNode} (hnd : (l.map BlueprintNode.nodeId).Nodup)
    {a b : BlueprintNode} (ha : a ∈ l) (hb : b ∈ l) (h : a.nodeId = b.nodeId) : a = b :=
  List.inj_on_of_nodup_map hnd ha hb h

/-- Concrete fixture for the claim C4 counterexample: an item node whose
id collides with a section node's id while being attached elsewhere.  No
stated data-model invariant forbids this graph (item ids are required to
be unique only among items). -/
def crossIdItem : BlueprintItemNode :=
  ⟨str "s", str "other", sampleItem (str "s") (str "button") none, ⟨1, 1⟩⟩

/-- Graph for the claim C4 counterexample. -/
def crossIdGraph : BlueprintGraph :=
  ⟨[.sec ⟨str "s", str "T", ⟨0, 0⟩⟩, .item crossIdItem]⟩

/-- Counterexample to claim C4 as stated: deleting the section node `s`
also removes the item node with the same id `s` even though that item's
`sectionId` is `other` (the code filters by node id, not by node
identity), so not all other nodes are kept. -/
theorem deleteNode_removes_samename_item :
    deleteNode crossIdGraph (str "s") = some ⟨[]⟩ ∧
    BlueprintNode.item crossIdItem ∈ crossIdGraph.nodes ∧
    crossIdItem.sectionId ≠ str "s" := by
  refine ⟨by decide, by decide, by decide⟩

/-- Claim C4 amended: in a graph whose node ids are pairwise distinct,
deleting a section node removes exactly that node and every item node
attached to it (no orphan remains), keeping all other nodes; deleting an
item node removes exactly that node. -/
theorem deleteNode_spec (g : BlueprintGraph)
    (hnd : (g.nodes.map BlueprintNode.nodeId).Nodup) :
    (∀ s : BlueprintSectionNode, BlueprintNode.sec s ∈ g.nodes →
      deleteNode g s.id = some ⟨g.nodes.filter fun n =>
        decide (n ≠ .sec s) &&
          (match n with
           | .sec _ => true
           | .item i => decide (i.sectionId ≠ s.id))⟩) ∧
    (∀ i : BlueprintItemNode, BlueprintNode.item i ∈ g.nodes →
      deleteNode g i.id = some ⟨g.nodes.filter fun n => decide (n ≠ .item i)⟩) := by
  constructor
  · intro s hmem
    have hfind : (g.nodes.find? fun m => decide (m.nodeId = s.id)) = some (.sec s) :=
      find?_nodeId_of_nodup hnd hmem
    have hcongr : ∀ n ∈ g.nodes,
        (decide (n.nodeId ≠ s.id) &&
          (match n with
           | .sec _ => true
           | .item i => decide (i.sectionId ≠ s.id))) =
        (decide (n ≠ .sec s) &&
          (match n with
           | .sec _ => true
           | .item i => decide (i.sectionId ≠ s.id))) := by
      intro n hn
      have hiff : (n.nodeId ≠ s.id) ↔ (n ≠ .sec s) := by
        constructor
        · intro h1 h2
          exact h1 (by rw [h2]; rfl)
        · intro h1 h2
          exact h1 (nodeId_injOn hnd hn hmem h2)
      rw [decide_eq_decide.mpr hiff]
    simp only [deleteNode, hfind]
    rw [List.filter_congr hcongr]
  · intro i hmem
    have hfind : (g.nodes.find? fun m => decide (m.nodeId = i.id)) = some (.item i) :=
      find?_nodeId_of_nodup hnd hmem
    have hcongr : ∀ n ∈ g.nodes,
        decide (n.nodeId ≠ i.id) = decide (n ≠ .item i) := by
      intro n hn
      apply decide_eq_decide.mpr
      constructor
      · intro h1 h2
        exact h1 (by rw [h2]; rfl)
      · intro h1 h2
        exact h1 (nodeId_injOn hnd hn hmem h2)
    simp only [deleteNode, hfind]
    rw [List.filter_congr hcongr]

/-- Witness for the claim C4 theorem: deleting `section_0` from `graphW`
cascades onto its one attached item, leaving the empty graph, and
deleting the item alone keeps the section. -/
theorem deleteNode_spec_witness :
    deleteNode graphW (str "section_0") = some ⟨[]⟩ ∧
    deleteNode graphW (str "a") = some ⟨[.sec ⟨str "section_0", str "T", ⟨0, 0⟩⟩]⟩ := by
  constructor
  · rw [(deleteNode_spec graphW (by decide)).1 ⟨str "section_0", str "T", ⟨0, 0⟩⟩ (by decide)]
    decide
  · rw [show str "a" = itemNodeW.id from rfl,
      (deleteNode_spec graphW (by decide)).2 itemNodeW (by decide)]
    decide

/-! Support lemmas: the lowest free section index. -/

lemma lowestFreeFrom_spec (used : List Nat) :
    ∀ fuel idx, (∃ n, idx ≤ n ∧ n < idx + fuel ∧ n ∉ used) →
      lowestFreeFrom used fuel idx ∉ used ∧ idx ≤ lowestFreeFrom used fuel idx ∧
        ∀ m, idx ≤ m → m < lowestFreeFrom used fuel idx → m ∈ used := by
  intro fuel
  induction fuel with
  | zero =>
    rintro idx ⟨n, h1, h2, _⟩
    omega
  | succ f ih =>
    rintro idx ⟨n, h1, h2, h3⟩
    rw [lowestFreeFrom]
    by_cases hidx : idx ∈ used
    · rw [if_pos hidx]
      have hnidx : n ≠ idx := fun he => h3 (he ▸ hidx)
      obtain ⟨ha, hb, hc⟩ := ih (idx + 1) ⟨n, by omega, by omega, h3⟩
      refine ⟨ha, by omega, ?_⟩
      intro m hm1 hm2
      by_cases hmi : m = idx
      · exact hmi ▸ hidx
      · exact hc m (by omega) hm2
    · rw [if_neg hidx]
      exact ⟨hidx, le_refl _, fun m h1 h2 => absurd h2 (by omega)⟩

lemma exists_fresh (used : List Nat) : ∃ n, n < used.length + 1 ∧ n ∉ used := by
  by_contra h
  push_neg at h
  have hsub : List.range (used.length + 1) ⊆ used := fun x hx => h x (List.mem_range.mp hx)
  have hle := (List.subperm_of_subset (List.nodup_range _) hsub).length_le
  rw [List.length_range] at hle
  omega

lemma lowestFree_spec (used : List Nat) :
    lowestFree used ∉ used ∧ ∀ m < lowestFree used, m ∈ used := by
  obtain ⟨n, hn1, hn2⟩ := exists_fresh used
  obtain ⟨ha, _, hc⟩ :=
    lowestFreeFrom_spec used (used.length + 1) 0 ⟨n, Nat.zero_le n, by omega, hn2⟩
  exact ⟨ha, fun m hm => hc m (Nat.zero_le m) hm⟩

/-- Concrete fixture for the claim C5 scenario: two sections
`section_0, section_1`. -/
def gScenario : BlueprintGraph :=
  ⟨[.sec ⟨str "section_0", str "A", ⟨0, 0⟩⟩, .sec ⟨str "section_1", str "B", ⟨0, 9⟩⟩]⟩

/-- Claim C5: adding a section appends a new section node whose id is
`section_<m>` for the lowest index `m` not used by an existing section
node, and in particular deleting `section_0` from a
`section_0, section_1` graph and adding a section reuses `section_0`.
Stated for graphs whose parseable section ids are canonically rendered
(no leading zeros) — every id the editor or the converter generates is. -/
theorem addSectionAt_spec (g : BlueprintGraph) (pos : Pos) (m : Nat)
    (hcanon : ∀ s : BlueprintSectionNode, BlueprintNode.sec s ∈ g.nodes →
      ∀ k, parseSectionId s.id = some k → s.id = secId k)
    (hfree : ∀ s : BlueprintSectionNode, BlueprintNode.sec s ∈ g.nodes → s.id ≠ secId m)
    (hlow : ∀ j < m, ∃ s : BlueprintSectionNode,
      BlueprintNode.sec s ∈ g.nodes ∧ s.id = secId j) :
    addSectionAt g pos = ⟨g.nodes ++ [.sec ⟨secId m, str "New Section", pos⟩]⟩ ∧
    (addSectionAt ((deleteNode gScenario (str "section_0")).getD gScenario) ⟨5, 5⟩).nodes.map
        BlueprintNode.nodeId = [str "section_1", str "section_0"] := by
  constructor
  · have hnext : nextSectionId g = secId m := by
      simp only [nextSectionId]
      congr 1
      set used := g.nodes.filterMap
        (fun n => match n with | .sec s => parseSectionId s.id | .item _ => none) with hused
      have husedmem : ∀ j : Nat, j ∈ used ↔
          ∃ s : BlueprintSectionNode,
            BlueprintNode.sec s ∈ g.nodes ∧ parseSectionId s.id = some j := by
        intro j
        rw [hused, List.mem_filterMap]
        constructor
        · rintro ⟨nd, hnd, hmatch⟩
          cases nd with
          | sec s => exact ⟨s, hnd, hmatch⟩
          | item i => exact absurd hmatch (by simp)
        · rintro ⟨s, hs, hp⟩
          exact ⟨.sec s, hs, hp⟩
      obtain ⟨hlf1, hlf2⟩ := lowestFree_spec used
      have hm_notin : m ∉ used := by
        intro hm
        obtain ⟨s, hs, hp⟩ := (husedmem m).mp hm
        exact hfree s hs (hcanon s hs m hp)
      have hm_low : ∀ j < m, j ∈ used := by
        intro j hj
        obtain ⟨s, hs, hid⟩ := hlow j hj
        exact (husedmem j).mpr ⟨s, hs, by rw [hid, parseSectionId_secId]⟩
      by_contra hne
      rcases Nat.lt_or_ge (lowestFree used) m with hlt | hge
      · exact hlf1 (hm_low _ hlt)
      · exact hm_notin (hlf2 m (by omega))
    simp only [addSectionAt, hnext]
  · decide

/-- Witness for the claim C5 theorem: adding a section to the empty graph
allocates `section_0`. -/
theorem addSectionAt_spec_witness :
    addSectionAt ⟨[]⟩ ⟨0, 0⟩ = ⟨[.sec ⟨secId 0, str "New Section", ⟨0, 0⟩⟩]⟩ :=
  (addSectionAt_spec ⟨[]⟩ ⟨0, 0⟩ 0
    (by intro s hs; simp at hs)
    (by intro s hs; simp at hs)
    (by intro j hj; omega)).1

/-! Support lemmas: position resolution in `schemaToBlueprintGraph`. -/

/-- The node with its position replaced. -/
def BlueprintNode.withPosition : BlueprintNode → Pos → BlueprintNode
  | .sec s, p => .sec { s with position := p }
  | .item i, p => .item { i with position := p }

/-- Relation between a node built with a saved-positions map and the same
node built with the empty map: identical except that the position is the
saved one when the id is recorded, the default one otherwise. -/
def PosResolved (saved : PosMap) (a b : BlueprintNode) : Prop :=
  a = b.withPosition ((mapGet saved b.nodeId).getD b.nodePosition)

lemma buildItemNodes_posResolved (saved : PosMap) (sid : Str) :
    ∀ (items : List AddonSettingsItem) (j : Nat) (y : Int),
      List.Forall₂ (PosResolved saved)
        (buildItemNodes saved sid items j y).1 (buildItemNodes [] sid items j y).1 ∧
      (buildItemNodes saved sid items j y).2 = (buildItemNodes [] sid items j y).2 := by
  intro items
  induction items with
  | nil => intro j y; exact ⟨List.Forall₂.nil, rfl⟩
  | cons item rest ih =>
    intro j y
    obtain ⟨hrel, hy⟩ := ih (j + 1) (y + ITEM_NODE_H + GAP_BETWEEN_ITEMS)
    refine ⟨List.Forall₂.cons ?_ hrel, hy⟩
    rw [PosResolved, BlueprintNode.withPosition]
    simp [mapGet_nil, BlueprintNode.nodeId, BlueprintNode.nodePosition]

lemma buildSections_posResolved (saved : PosMap) :
    ∀ (secs : List AddonSettingsSection) (i : Nat) (y : Int),
      List.Forall₂ (PosResolved saved)
        (buildSections saved secs i y) (buildSections [] secs i y) := by
  intro secs
  induction secs with
  | nil => intro i y; exact List.Forall₂.nil
  | cons s rest ih =>
    intro i y
    obtain ⟨hrel, hy⟩ :=
      buildItemNodes_posResolved saved (secId i) s.items 0
        (y + SECTION_HEADER_H + GAP_SECTION_TO_ITEMS)
    refine List.Forall₂.cons ?_ ?_
    · rw [PosResolved, BlueprintNode.withPosition]
      simp [mapGet_nil, BlueprintNode.nodeId, BlueprintNode.nodePosition]
    · rw [show (buildItemNodes saved (secId i) s.items 0
          (y + SECTION_HEADER_H + GAP_SECTION_TO_ITEMS)).2 + GAP_BETWEEN_SECTIONS =
          (buildItemNodes [] (secId i) s.items 0
            (y + SECTION_HEADER_H + GAP_SECTION_TO_ITEMS)).2 + GAP_BETWEEN_SECTIONS from by
        rw [hy]]
      exact List.rel_append hrel (ih (i + 1) _)

/-- Counterexample to claim C3 as stated: for an id present both in the
schema's persisted NodeLayout list (at position (1,1)) and in the
previous graph (at position (2,2)), the produced node carries the
previous graph's position — the previous graph overwrites the persisted
layout, not the other way around. -/
theorem position_precedence_counterexample :
    (schemaToBlueprintGraph
        ⟨[⟨str "t", []⟩], some [⟨str "section_0", .sec, ⟨1, 1⟩, none⟩]⟩
        (some ⟨[.sec ⟨str "section_0", str "t", ⟨2, 2⟩⟩]⟩)).nodes =
      [.sec ⟨str "section_0", str "t", ⟨2, 2⟩⟩] ∧
    ((⟨2, 2⟩ : Pos) ≠ ⟨1, 1⟩) := by
  constructor
  · decide
  · decide

/-- Claim C3 amended: every node produced by
`schemaToBlueprintGraph schema (some prev)` equals the node the pure
top-to-bottom default layout would produce, with its position overridden
by, in this precedence order: (a) the position of the (last) node with
the same id in `prev`, otherwise (b) the position recorded under that id
in the schema's (last matching) persisted NodeLayout entry, otherwise
(c) the freshly computed default; in particular a fresh default position
is used only for ids absent from both sources. -/
theorem position_resolution (schema : AddonSettingsSchema) (prev : BlueprintGraph) :
    List.Forall₂ (fun a b => a = b.withPosition
        ((Option.orElse
            (mapGet (prev.nodes.map fun n => (n.nodeId, n.nodePosition)) b.nodeId)
            (fun _ =>
              mapGet ((schema.nodes.getD []).map fun nl => (nl.id, nl.position)) b.nodeId)).getD
          b.nodePosition))
      (schemaToBlueprintGraph schema (some prev)).nodes
      (schemaToBlueprintGraph ⟨schema.sections, none⟩ none).nodes := by
  have hsaved : savedPositionsOf schema (some prev) =
      ((schema.nodes.getD []).map fun nl => (nl.id, nl.position)) ++
        (prev.nodes.map fun n => (n.nodeId, n.nodePosition)) := rfl
  have hbase := buildSections_posResolved (savedPositionsOf schema (some prev))
    schema.sections 0 LAYOUT_START_Y
  have hg : (schemaToBlueprintGraph schema (some prev)).nodes =
      buildSections (savedPositionsOf schema (some prev)) schema.sections 0 LAYOUT_START_Y := rfl
  have hd : (schemaToBlueprintGraph ⟨schema.sections, none⟩ none).nodes =
      buildSections [] schema.sections 0 LAYOUT_START_Y := rfl
  rw [hg, hd]
  refine List.Forall₂.imp ?_ hbase
  intro a b hab
  rw [PosResolved] at hab
  rw [hab, hsaved, mapGet_append]

/-- Concrete fixture for the claim C7 stability instance: two items with
no `order`, listed as `[item_b, item_a]`. -/
def tieGraph : BlueprintGraph :=
  ⟨[.sec ⟨str "s", str "T", ⟨0, 0⟩⟩,
    .item ⟨str "b", str "s", sampleItem (str "b") (str "button") none, ⟨0, 1⟩⟩,
    .item ⟨str "a", str "s", sampleItem (str "a") (str "button") none, ⟨0, 2⟩⟩]⟩

/-- Claim C7: the `k`-th exported section carries the `k`-th section
node's title and emits, as a list sorted non-decreasingly by
`order ?? 0`, exactly the item payloads of the item nodes whose
`sectionId` equals that section node's id (an orphaned `sectionId`
matches no exported section, so orphans are dropped), tie groups keeping
the graph's node-list relative order: for every key `q`, the sub-list of
emitted items with key `q` equals the sub-list of matching item nodes
with key `q` in node-list order.  In particular two items with `order`
unset listed as `[item_b, item_a]` export in that same order. -/
theorem export_items_per_section (g : BlueprintGraph) (k : Nat)
    (sec : BlueprintSectionNode) (hsec : g.sectionNodes[k]? = some sec) :
    (∃ items : List AddonSettingsItem,
      (blueprintGraphToSchema g).sections[k]? = some ⟨sec.title, items⟩ ∧
      items.Pairwise (fun a b => a.order.getD 0 ≤ b.order.getD 0) ∧
      (∀ q : Int, items.filter (fun it => decide (it.order.getD 0 = q)) =
        ((g.itemNodes.filter fun n => decide (n.sectionId = sec.id)).map (·.item)).filter
          (fun it => decide (it.order.getD 0 = q)))) ∧
    ((blueprintGraphToSchema tieGraph).sections.map fun s => s.items.map (·.id)) =
      [[str "b", str "a"]] := by
  constructor
  · have hmem : sec ∈ g.sectionNodes := by
      have := List.getElem?_eq_some_iff.mp hsec
      obtain ⟨hk, hget⟩ := this
      exact hget ▸ List.getElem_mem hk
    have hsecid : sec.id ∈ g.sectionNodes.map (·.id) := List.mem_map_of_mem _ hmem
    have hsections : (blueprintGraphToSchema g).sections =
        g.sectionNodes.map (fun s =>
          { title := s.title
            items := (sortByOrder (g.itemNodes.filter fun it =>
                decide (it.sectionId = s.id ∧
                  it.sectionId ∈ g.sectionNodes.map (·.id)))).map (·.item) }) := rfl
    have hfilter : (g.itemNodes.filter fun it =>
        decide (it.sectionId = sec.id ∧ it.sectionId ∈ g.sectionNodes.map (·.id))) =
        g.itemNodes.filter fun it => decide (it.sectionId = sec.id) := by
      apply List.filter_congr
      intro n _
      apply decide_eq_decide.mpr
      constructor
      · exact fun h => h.1
      · exact fun h => ⟨h, h ▸ hsecid⟩
    refine ⟨(sortByOrder (g.itemNodes.filter fun it =>
        decide (it.sectionId = sec.id))).map (·.item), ?_, ?_, ?_⟩
    · rw [hsections, List.getElem?_map, hsec]
      simp only [Option.map_some']
      rw [hfilter]
    · rw [List.pairwise_map]
      exact sortByOrder_pairwise _
    · intro q
      have hcomm : ∀ l : List BlueprintItemNode,
          (l.map (·.item)).filter (fun it => decide (it.order.getD 0 = q)) =
            (l.filter fun n => decide (orderKey n = q)).map (·.item) := by
        intro l
        induction l with
        | nil => rfl
        | cons a l ih =>
          rw [List.map_cons, List.filter_cons, List.filter_cons]
          by_cases hq : orderKey a = q
          · rw [if_pos (by simpa [orderKey] using hq), if_pos (by simpa using hq),
              List.map_cons, ih]
          · rw [if_neg (by simpa [orderKey] using hq), if_neg (by simpa using hq), ih]
      rw [hcomm, hcomm, sortByOrder_filter_key]
  · decide

/-- Witness for the claim C7 theorem: the tie-stability instance, with
the hypotheses discharged at the `tieGraph` fixture. -/
theorem export_items_per_section_witness :
    ((blueprintGraphToSchema tieGraph).sections.map fun s => s.items.map (·.id)) =
      [[str "b", str "a"]] :=
  (export_items_per_section tieGraph 0 ⟨str "s", str "T", ⟨0, 0⟩⟩ (by decide)).2

/-! Support: projections of a built graph onto its content (positions
stripped), used for the round-trip theorems. -/

/-- Project a node onto (id, title) when it is a section node. -/
def secProj : BlueprintNode → Option (Str × Str)
  | .sec s => some (s.id, s.title)
  | .item _ => none

/-- Project a node onto (sectionId, item payload) when it is an item node. -/
def itemPairProj : BlueprintNode → Option (Str × AddonSettingsItem)
  | .sec _ => none
  | .item i => some (i.sectionId, i.item)

/-- Sort key of a projected item pair: `order ?? 0` of the payload. -/
def pairKey (pr : Str × AddonSettingsItem) : Int := pr.2.order.getD 0

/-- (id, title) of the section nodes `schemaToBlueprintGraph` produces,
one per schema section, ids positional from the given start index. -/
def builtSectionHeads : List AddonSettingsSection → Nat → List (Str × Str)
  | [], _ => []
  | s :: rest, i => (secId i, s.title) :: builtSectionHeads rest (i + 1)

/-- (sectionId, normalized payload) of the item nodes produced for one
schema section. -/
def builtItemsOfSection (sid : Str) :
    List AddonSettingsItem → Nat → List (Str × AddonSettingsItem)
  | [], _ => []
  | it :: rest, j =>
    (sid, normalizeItem (resolvedItemId sid it j) it) :: builtItemsOfSection sid rest (j + 1)

/-- (sectionId, normalized payload) of all produced item nodes, section
blocks in order. -/
def builtItems : List AddonSettingsSection → Nat → List (Str × AddonSettingsItem)
  | [], _ => []
  | s :: rest, i => builtItemsOfSection (secId i) s.items 0 ++ builtItems rest (i + 1)

lemma buildItemNodes_secProj (saved : PosMap) (sid : Str) :
    ∀ (items : List AddonSettingsItem) (j : Nat) (y : Int),
      (buildItemNodes saved sid items j y).1.filterMap secProj = [] := by
  intro items
  induction items with
  | nil => intro j y; rfl
  | cons it rest ih =>
    intro j y
    rw [buildItemNodes]
    simp only [List.filterMap_cons]
    exact ih (j + 1) _

lemma buildItemNodes_itemProj (saved : PosMap) (sid : Str) :
    ∀ (items : List AddonSettingsItem) (j : Nat) (y : Int),
      (buildItemNodes saved sid items j y).1.filterMap itemPairProj =
        builtItemsOfSection sid items j := by
  intro items
  induction items with
  | nil => intro j y; rfl
  | cons it rest ih =>
    intro j y
    rw [buildItemNodes, builtItemsOfSection]
    simp only [List.filterMap_cons]
    rw [ih (j + 1) _]
    rfl

lemma buildSections_secProj (saved : PosMap) :
    ∀ (secs : List AddonSettingsSection) (i : Nat) (y : Int),
      (buildSections saved secs i y).filterMap secProj = builtSectionHeads secs i := by
  intro secs
  induction secs with
  | nil => intro i y; rfl
  | cons s rest ih =>
    intro i y
    rw [buildSections, builtSectionHeads]
    simp only [List.filterMap_cons, List.filterMap_append]
    rw [buildItemNodes_secProj, ih (i + 1) _]
    rfl

lemma buildSections_itemProj (saved : PosMap) :
    ∀ (secs : List AddonSettingsSection) (i : Nat) (y : Int),
      (buildSections saved secs i y).filterMap itemPairProj = builtItems secs i := by
  intro secs
  induction secs with
  | nil => intro i y; rfl
  | cons s rest ih =>
    intro i y
    rw [buildSections, builtItems]
    simp only [List.filterMap_cons, List.filterMap_append]
    rw [buildItemNodes_itemProj, ih (i + 1) _]
    rfl

lemma sectionNodes_proj (g : BlueprintGraph) :
    g.sectionNodes.map (fun s => (s.id, s.title)) = g.nodes.filterMap secProj := by
  rw [BlueprintGraph.sectionNodes, List.map_filterMap]
  have h : (fun n : BlueprintNode =>
      (match n with
        | .sec s => some s
        | .item _ => none).map fun s : BlueprintSectionNode => (s.id, s.title)) = secProj := by
    funext n
    cases n <;> rfl
  rw [h]

lemma itemNodes_proj (g : BlueprintGraph) :
    g.itemNodes.map (fun n => (n.sectionId, n.item)) = g.nodes.filterMap itemPairProj := by
  rw [BlueprintGraph.itemNodes, List.map_filterMap]
  have h : (fun n : BlueprintNode =>
      (match n with
        | .sec _ => none
        | .item i => some i).map fun i : BlueprintItemNode => (i.sectionId, i.item)) =
      itemPairProj := by
    funext n
    cases n <;> rfl
  rw [h]

/-- A schema section rebuilt from projected pairs: stably sorted payloads
of the pairs carrying the given section id. -/
def exportedSection (itemPairs : List (Str × AddonSettingsItem)) (sid title : Str) :
    AddonSettingsSection where
  title := title
  items := (stableSortBy pairKey (itemPairs.filter fun pr => decide (pr.1 = sid))).map (·.2)

/-- Like `exportedSection`, with the source's redundant membership check
of the section id in the graph's section-id list. -/
def exportedSectionChecked (itemPairs : List (Str × AddonSettingsItem)) (ids : List Str)
    (sid title : Str) : AddonSettingsSection where
  title := title
  items := (stableSortBy pairKey (itemPairs.filter fun pr =>
    decide (pr.1 = sid ∧ pr.1 ∈ ids))).map (·.2)

/-- The exported sections depend only on the position-stripped projections
of the graph: titles come from the section-node projection, and each
section's items are the stably-sorted payloads of the matching item-node
projections. -/
lemma export_sections_proj (g : BlueprintGraph) :
    (blueprintGraphToSchema g).sections =
      (g.nodes.filterMap secProj).map (fun idt =>
        exportedSectionChecked (g.nodes.filterMap itemPairProj)
          (g.sectionNodes.map (·.id)) idt.1 idt.2) := by
  have hitem : ∀ sid : Str,
      (sortByOrder (g.itemNodes.filter fun it =>
          decide (it.sectionId = sid ∧ it.sectionId ∈ g.sectionNodes.map (·.id)))).map
        (·.item) =
      (stableSortBy pairKey ((g.nodes.filterMap itemPairProj).filter fun pr =>
          decide (pr.1 = sid ∧ pr.1 ∈ g.sectionNodes.map (·.id)))).map (·.2) := by
    intro sid
    rw [← itemNodes_proj, List.filter_map,
      ← stableSortBy_map orderKey pairKey (fun n => (n.sectionId, n.item)) (fun a => rfl),
      List.map_map]
    rfl
  have hstart : (blueprintGraphToSchema g).sections =
      g.sectionNodes.map (fun s =>
        { title := s.title
          items := (sortByOrder (g.itemNodes.filter fun it =>
              decide (it.sectionId = s.id ∧
                it.sectionId ∈ g.sectionNodes.map (·.id)))).map (·.item) }) := rfl
  rw [hstart, ← sectionNodes_proj, List.map_map]
  apply List.map_congr_left
  intro s hs
  show _ = exportedSectionChecked (g.nodes.filterMap itemPairProj)
    (g.sectionNodes.map (·.id)) s.id s.title
  rw [exportedSectionChecked]
  show _ = ({ title := s.title,
              items := (stableSortBy pairKey
                ((g.nodes.filterMap itemPairProj).filter fun pr =>
                  decide (pr.1 = s.id ∧ pr.1 ∈ g.sectionNodes.map (·.id)))).map (·.2) } :
    AddonSettingsSection)
  rw [hitem s.id]

lemma builtItemsOfSection_fst (sid : Str) :
    ∀ (items : List AddonSettingsItem) (j : Nat),
      ∀ pr ∈ builtItemsOfSection sid items j, pr.1 = sid := by
  intro items
  induction items with
  | nil => intro j pr hpr; simp [builtItemsOfSection] at hpr
  | cons it rest ih =>
    intro j pr hpr
    rw [builtItemsOfSection] at hpr
    rcases List.mem_cons.mp hpr with rfl | hpr
    · rfl
    · exact ih (j + 1) pr hpr

lemma filter_builtItemsOfSection_self (sid : Str) (items : List AddonSettingsItem) (j : Nat) :
    (builtItemsOfSection sid items j).filter (fun pr => decide (pr.1 = sid)) =
      builtItemsOfSection sid items j := by
  rw [List.filter_eq_self]
  intro pr hpr
  simp [builtItemsOfSection_fst sid items j pr hpr]

lemma filter_builtItemsOfSection_ne {sid sid' : Str} (h : sid' ≠ sid)
    (items : List AddonSettingsItem) (j : Nat) :
    (builtItemsOfSection sid items j).filter (fun pr => decide (pr.1 = sid')) = [] := by
  rw [List.filter_eq_nil_iff]
  intro pr hpr
  have hne : ¬ sid = sid' := fun he => h he.symm
  simp [builtItemsOfSection_fst sid items j pr hpr, hne]

lemma filter_builtItems_lt :
    ∀ (secs : List AddonSettingsSection) (iHi j : Nat), j < iHi →
      (builtItems secs iHi).filter (fun pr => decide (pr.1 = secId j)) = [] := by
  intro secs
  induction secs with
  | nil => intro iHi j _; rfl
  | cons s rest ih =>
    intro iHi j hj
    rw [builtItems, List.filter_append]
    rw [filter_builtItemsOfSection_ne (fun he => absurd (secId_inj he) (by omega)),
      ih (iHi + 1) j (by omega)]
    rfl

lemma builtSectionHeads_fst :
    ∀ (secs : List AddonSettingsSection) (i : Nat),
      ∀ idt ∈ builtSectionHeads secs i, ∃ k, i ≤ k ∧ idt.1 = secId k := by
  intro secs
  induction secs with
  | nil => intro i idt hidt; simp [builtSectionHeads] at hidt
  | cons s rest ih =>
    intro i idt hidt
    rw [builtSectionHeads] at hidt
    rcases List.mem_cons.mp hidt with rfl | hidt
    · exact ⟨i, le_refl _, rfl⟩
    · obtain ⟨k, hk1, hk2⟩ := ih (i + 1) idt hidt
      exact ⟨k, by omega, hk2⟩

lemma normalizeButtons_eq_self (iid : Str) :
    ∀ (bs : List AddonSettingsButtonItem) (j : Nat), (∀ b ∈ bs, b.id ≠ []) →
      normalizeButtons iid bs j = bs := by
  intro bs
  induction bs with
  | nil => intro j _; rfl
  | cons b rest ih =>
    intro j h
    rw [normalizeButtons, if_neg (h b (List.mem_cons_self b rest))]
    have hb : ({ b with id := b.id } : AddonSettingsButtonItem) = b := rfl
    rw [hb, ih (j + 1) fun x hx => h x (List.mem_cons_of_mem b hx)]

lemma normalizeItem_eq_self (it : AddonSettingsItem)
    (hb : ∀ bs, it.buttons = some bs → ∀ b ∈ bs, b.id ≠ []) :
    normalizeItem it.id it = it := by
  have hself : ({ it with id := it.id } : AddonSettingsItem) = it := rfl
  show (if it.type = str "text" ∧ it.buttons ≠ none then
      ({ it with buttons := it.buttons.map fun bs => normalizeButtons it.id bs 0 } :
        AddonSettingsItem)
    else it) = it
  by_cases hc : it.type = str "text" ∧ it.buttons ≠ none
  · rw [if_pos hc]
    obtain ⟨bs, hbs⟩ := Option.ne_none_iff_exists'.mp hc.2
    rw [hbs, Option.map_some', normalizeButtons_eq_self it.id bs 0 (hb bs hbs), ← hbs]
  · rw [if_neg hc]

lemma builtItemsOfSection_map (sid : Str) :
    ∀ (items : List AddonSettingsItem) (j : Nat),
      (∀ it ∈ items, it.id ≠ [] ∧ ∀ bs, it.buttons = some bs → ∀ b ∈ bs, b.id ≠ []) →
      builtItemsOfSection sid items j = items.map (fun it => (sid, it)) := by
  intro items
  induction items with
  | nil => intro j _; rfl
  | cons it rest ih =>
    intro j h
    rw [builtItemsOfSection, List.map_cons]
    have hhd := h it (List.mem_cons_self it rest)
    rw [show resolvedItemId sid it j = it.id from if_neg hhd.1,
      normalizeItem_eq_self it hhd.2,
      ih (j + 1) fun x hx => h x (List.mem_cons_of_mem it hx)]

/-- Well-formedness of one schema section for the round-trip: item ids
and button ids are nonempty (so id normalization is the identity) and the
items are already listed in non-decreasing `order ?? 0` (the order the
export's sort emits). -/
def RoundTripSection (sec : AddonSettingsSection) : Prop :=
  (∀ it ∈ sec.items, it.id ≠ [] ∧ ∀ bs, it.buttons = some bs → ∀ b ∈ bs, b.id ≠ []) ∧
    sec.items.Pairwise (fun a b => a.order.getD 0 ≤ b.order.getD 0)

lemma exportBuilt_eq :
    ∀ (secs : List AddonSettingsSection) (i : Nat), (∀ sec ∈ secs, RoundTripSection sec) →
      (builtSectionHeads secs i).map (fun idt =>
        exportedSection (builtItems secs i) idt.1 idt.2) = secs := by
  intro secs
  induction secs with
  | nil => intro i _; rfl
  | cons s rest ih =>
    intro i hyp
    obtain ⟨hids, hsort⟩ := hyp s (List.mem_cons_self s rest)
    rw [builtSectionHeads, List.map_cons]
    congr 1
    · show exportedSection (builtItems (s :: rest) i) (secId i) s.title = s
      rw [exportedSection, builtItems, List.filter_append, filter_builtItemsOfSection_self,
        filter_builtItems_lt rest (i + 1) i (by omega), List.append_nil,
        builtItemsOfSection_map (secId i) s.items 0 hids,
        stableSortBy_of_pairwise pairKey
          (List.pairwise_map.mpr (by simpa [pairKey] using hsort)),
        List.map_map]
      show ({ title := s.title, items := s.items.map fun it => it } :
        AddonSettingsSection) = s
      rw [List.map_id']
    · have htail : ∀ idt ∈ builtSectionHeads rest (i + 1),
          exportedSection (builtItems (s :: rest) i) idt.1 idt.2 =
            exportedSection (builtItems rest (i + 1)) idt.1 idt.2 := by
        intro idt hidt
        obtain ⟨k, hk1, hk2⟩ := builtSectionHeads_fst rest (i + 1) idt hidt
        rw [exportedSection, exportedSection, builtItems, List.filter_append, hk2,
          filter_builtItemsOfSection_ne (fun he => absurd (secId_inj he) (by omega)) s.items 0,
          List.nil_append]
      rw [List.map_congr_left htail,
        ih (i + 1) fun sec hsec => hyp sec (List.mem_cons_of_mem s hsec)]

/-- Concrete fixture for the claim C1 counterexample: items listed against
their `order` keys, and an item with an empty id. -/
def unsortedSchema : AddonSettingsSchema :=
  ⟨[⟨str "G", [sampleItem (str "a") (str "button") (some 2),
               sampleItem (str "b") (str "button") (some 1)]⟩,
    ⟨str "H", [sampleItem [] (str "button") none]⟩], none⟩

/-- Counterexample to claim C1 as stated: for a schema whose first
section lists items `a (order 2), b (order 1)`, the round trip re-sorts
them to `[b, a]`, so item order within a section is not preserved; and
for an item with an empty id the round trip rewrites the id field to the
synthesized `section_1_item_0`, so item field values are not preserved
either. -/
theorem roundtrip_counterexample :
    (blueprintGraphToSchema (schemaToBlueprintGraph unsortedSchema none)).sections.map
        (fun s => s.items.map (·.id)) =
      [[str "b", str "a"], [str "section_1_item_0"]] ∧
    unsortedSchema.sections.map (fun s => s.items.map (·.id)) =
      [[str "a", str "b"], [[]]] := by
  constructor
  · decide
  · decide

/-- Claim C1 amended: for every schema whose item ids (and text-button
ids) are nonempty and whose sections list their items in non-decreasing
`order ?? 0`, converting with `schemaToBlueprintGraph` and back with
`blueprintGraphToSchema` reproduces the sections exactly: every section
title, every item's field values, and the order of items within each
section are preserved (the persisted `nodes` layout list is the only part
of the schema that changes). -/
theorem roundtrip_schema (S : AddonSettingsSchema)
    (hwf : ∀ sec ∈ S.sections, RoundTripSection sec) :
    (blueprintGraphToSchema (schemaToBlueprintGraph S none)).sections = S.sections := by
  rw [export_sections_proj]
  have h1 : (schemaToBlueprintGraph S none).nodes.filterMap secProj =
      builtSectionHeads S.sections 0 := buildSections_secProj _ _ _ _
  have h2 : (schemaToBlueprintGraph S none).nodes.filterMap itemPairProj =
      builtItems S.sections 0 := buildSections_itemProj _ _ _ _
  have h3 : (schemaToBlueprintGraph S none).sectionNodes.map (·.id) =
      (builtSectionHeads S.sections 0).map (·.1) := by
    rw [← h1, ← sectionNodes_proj, List.map_map]
    rfl
  rw [h1, h2, h3]
  have hconj : ∀ idt ∈ builtSectionHeads S.sections 0,
      exportedSectionChecked (builtItems S.sections 0)
          ((builtSectionHeads S.sections 0).map (·.1)) idt.1 idt.2 =
        exportedSection (builtItems S.sections 0) idt.1 idt.2 := by
    intro idt hidt
    have hmem : idt.1 ∈ (builtSectionHeads S.sections 0).map (·.1) :=
      List.mem_map_of_mem _ hidt
    have hfil : ((builtItems S.sections 0).filter fun pr =>
        decide (pr.1 = idt.1 ∧ pr.1 ∈ (builtSectionHeads S.sections 0).map (·.1))) =
        (builtItems S.sections 0).filter fun pr => decide (pr.1 = idt.1) := by
      apply List.filter_congr
      intro pr _
      apply decide_eq_decide.mpr
      exact ⟨fun h => h.1, fun h => ⟨h, h ▸ hmem⟩⟩
    rw [exportedSectionChecked, exportedSection, hfil]
  rw [List.map_congr_left hconj]
  exact exportBuilt_eq S.sections 0 hwf

/-- Witness for the claim C1 theorem at a concrete two-item schema. -/
theorem roundtrip_schema_witness :
    (blueprintGraphToSchema (schemaToBlueprintGraph
        ⟨[⟨str "G", [sampleItem (str "a") (str "button") (some 1),
                     sampleItem (str "b") (str "button") (some 2)]⟩], none⟩ none)).sections =
      [⟨str "G", [sampleItem (str "a") (str "button") (some 1),
                  sampleItem (str "b") (str "button") (some 2)]⟩] :=
  roundtrip_schema
    ⟨[⟨str "G", [sampleItem (str "a") (str "button") (some 1),
                 sampleItem (str "b") (str "button") (some 2)]⟩], none⟩
    (by
      intro sec hsec
      rw [List.mem_singleton] at hsec
      subst hsec
      refine ⟨?_, ?_⟩
      · intro it hit
        rcases List.mem_cons.mp hit with rfl | hit
        · exact ⟨by decide, fun bs hbs => Option.noConfusion hbs⟩
        · rcases List.mem_cons.mp hit with rfl | hit
          · exact ⟨by decide, fun bs hbs => Option.noConfusion hbs⟩
          · simp at hit
      · decide)

/-! Support lemmas: the graph -> schema -> graph direction. -/

lemma sec_mem_nodes {g : BlueprintGraph} {s : BlueprintSectionNode} :
    s ∈ g.sectionNodes ↔ BlueprintNode.sec s ∈ g.nodes := by
  rw [BlueprintGraph.sectionNodes, List.mem_filterMap]
  constructor
  · rintro ⟨n, hn, hmatch⟩
    cases n with
    | sec s' =>
      obtain rfl : s' = s := by simpa using hmatch
      exact hn
    | item i => simp at hmatch
  · intro hn
    exact ⟨.sec s, hn, rfl⟩

lemma item_mem_nodes {g : BlueprintGraph} {i : BlueprintItemNode} :
    i ∈ g.itemNodes ↔ BlueprintNode.item i ∈ g.nodes := by
  rw [BlueprintGraph.itemNodes, List.mem_filterMap]
  constructor
  · rintro ⟨n, hn, hmatch⟩
    cases n with
    | sec s => simp at hmatch
    | item i' =>
      obtain rfl : i' = i := by simpa using hmatch
      exact hn
  · intro hn
    exact ⟨.item i, hn, rfl⟩

/-- The saved-positions map built from a graph's own export maps every
node id of a duplicate-free graph to that node's position. -/
lemma export_savedPositions (g : BlueprintGraph)
    (hnd : (g.nodes.map BlueprintNode.nodeId).Nodup)
    {n : BlueprintNode} (hn : n ∈ g.nodes) :
    mapGet (savedPositionsOf (blueprintGraphToSchema g) none) n.nodeId =
      some n.nodePosition := by
  have hsaved : savedPositionsOf (blueprintGraphToSchema g) none =
      g.nodes.map fun m => (m.nodeId, m.nodePosition) := by
    show ((blueprintGraphToSchema g).nodes.getD []).map (fun nl => (nl.id, nl.position)) ++
      [] = _
    rw [List.append_nil]
    show ((g.nodes.map fun m => match m with
      | .sec s => (⟨s.id, .sec, s.position, none⟩ : AddonSettingsNodeLayout)
      | .item i =>
        ⟨i.id, .item, i.position, if i.sectionId = [] then none else some i.sectionId⟩).map
        fun nl => (nl.id, nl.position)) = _
    rw [List.map_map]
    apply List.map_congr_left
    intro m _
    cases m <;> rfl
  rw [hsaved]
  apply mapGet_of_nodup
  · rw [List.map_map]
    exact hnd
  · exact List.mem_map_of_mem _ hn

lemma mem_buildSections_sec (saved : PosMap) :
    ∀ (secs : List AddonSettingsSection) (i : Nat) (y : Int) (k : Nat)
      (sec : AddonSettingsSection), secs[k]? = some sec →
      ∀ p, mapGet saved (secId (i + k)) = some p →
        BlueprintNode.sec ⟨secId (i + k), sec.title, p⟩ ∈ buildSections saved secs i y := by
  intro secs
  induction secs with
  | nil => intro i y k sec hk; simp at hk
  | cons s rest ih =>
    intro i y k sec hk p hp
    rw [buildSections]
    cases k with
    | zero =>
      obtain rfl : s = sec := by simpa using hk
      rw [show i + 0 = i from rfl] at hp
      rw [show i + 0 = i from rfl]
      rw [hp]
      exact List.mem_cons_self _ _
    | succ k =>
      rw [List.getElem?_cons_succ] at hk
      apply List.mem_cons_of_mem
      apply List.mem_append_right
      have := ih (i + 1) ((buildItemNodes saved (secId i) s.items 0
        (y + SECTION_HEADER_H + GAP_SECTION_TO_ITEMS)).2 + GAP_BETWEEN_SECTIONS) k sec hk p
      rw [show i + 1 + k = i + (k + 1) from by omega] at this
      exact this hp

lemma mem_buildItemNodes (saved : PosMap) (sid : Str) :
    ∀ (items : List AddonSettingsItem) (j : Nat) (y : Int) (it : AddonSettingsItem),
      it ∈ items → it.id ≠ [] →
      (∀ bs, it.buttons = some bs → ∀ b ∈ bs, b.id ≠ []) →
      ∀ p, mapGet saved it.id = some p →
        BlueprintNode.item ⟨it.id, sid, it, p⟩ ∈ (buildItemNodes saved sid items j y).1 := by
  intro items
  induction items with
  | nil => intro j y it hit; simp at hit
  | cons hd rest ih =>
    intro j y it hit hid hbtn p hp
    rw [buildItemNodes]
    rcases List.mem_cons.mp hit with rfl | hit
    · rw [show resolvedItemId sid it j = it.id from if_neg hid,
        normalizeItem_eq_self it hbtn, hp]
      exact List.mem_cons_self _ _
    · exact List.mem_cons_of_mem _ (ih (j + 1) _ it hit hid hbtn p hp)

lemma mem_buildSections_item (saved : PosMap) :
    ∀ (secs : List AddonSettingsSection) (i : Nat) (y : Int) (k : Nat)
      (sec : AddonSettingsSection), secs[k]? = some sec →
      ∀ it ∈ sec.items, it.id ≠ [] →
      (∀ bs, it.buttons = some bs → ∀ b ∈ bs, b.id ≠ []) →
      ∀ p, mapGet saved it.id = some p →
        BlueprintNode.item ⟨it.id, secId (i + k), it, p⟩ ∈ buildSections saved secs i y := by
  intro secs
  induction secs with
  | nil => intro i y k sec hk; simp at hk
  | cons s rest ih =>
    intro i y k sec hk it hit hid hbtn p hp
    rw [buildSections]
    cases k with
    | zero =>
      obtain rfl : s = sec := by simpa using hk
      apply List.mem_cons_of_mem
      apply List.mem_append_left
      rw [show i + 0 = i from rfl]
      exact mem_buildItemNodes saved (secId i) s.items 0 _ it hit hid hbtn p hp
    | succ k =>
      rw [List.getElem?_cons_succ] at hk
      apply List.mem_cons_of_mem
      apply List.mem_append_right
      have := ih (i + 1) ((buildItemNodes saved (secId i) s.items 0
        (y + SECTION_HEADER_H + GAP_SECTION_TO_ITEMS)).2 + GAP_BETWEEN_SECTIONS) k sec hk
        it hit hid hbtn p hp
      rw [show i + 1 + k = i + (k + 1) from by omega] at this
      exact this

/-- Concrete fixture for the claim C2 counterexample: the graph reached
from the empty graph by add-section at (100,100), add-item to
`section_0` (generated id `itemA`), then detach of that item — §4.3
operations only. -/
def detachedGraph : BlueprintGraph :=
  detachItemById
    ((addItemToSection (addSectionAt ⟨[]⟩ ⟨100, 100⟩) (str "section_0") (str "button")
        (str "itemA")).getD ⟨[]⟩)
    (str "itemA")

/-- Counterexample to claim C2 as stated: `detachedGraph` is reachable by
the editing operations and its detached item node `itemA` has a perfectly
resolvable id, yet `graph -> schema -> graph` rebuilds only nodes reachable
from the exported sections, so the detached item node — and with it its
position — is dropped entirely. -/
theorem graph_roundtrip_drops_detached :
    detachedGraph.nodes.map BlueprintNode.nodeId = [str "section_0", str "itemA"] ∧
    (schemaToBlueprintGraph (blueprintGraphToSchema detachedGraph) none).nodes.map
        BlueprintNode.nodeId = [str "section_0"] := by
  constructor
  · decide
  · decide

/-- Claim C2 amended: for a graph with pairwise-distinct node ids whose
item nodes carry nonempty ids equal to their payload's id (and nonempty
button ids), `graph -> schema -> graph` (with no previous graph) rebuilds,
with id, title/payload and position preserved: every section node whose
id is positional (`section_<its index among section nodes>`), and every
attached item node — the rebuilt item's `sectionId` is the positional id
of its section's index, so the attachment edge is preserved exactly when
the section's id was positional.  Detached item nodes are not rebuilt. -/
theorem graph_roundtrip_preserves (g : BlueprintGraph)
    (hnd : (g.nodes.map BlueprintNode.nodeId).Nodup)
    (hitems : ∀ i : BlueprintItemNode, BlueprintNode.item i ∈ g.nodes →
      i.id ≠ [] ∧ i.item.id = i.id ∧
        ∀ bs, i.item.buttons = some bs → ∀ b ∈ bs, b.id ≠ []) :
    (∀ (k : Nat) (s : BlueprintSectionNode), g.sectionNodes[k]? = some s → s.id = secId k →
      BlueprintNode.sec s ∈ (schemaToBlueprintGraph (blueprintGraphToSchema g) none).nodes) ∧
    (∀ (n : BlueprintItemNode), BlueprintNode.item n ∈ g.nodes →
      ∀ (k : Nat) (s : BlueprintSectionNode), g.sectionNodes[k]? = some s →
        s.id = n.sectionId →
        BlueprintNode.item ⟨n.id, secId k, n.item, n.position⟩ ∈
          (schemaToBlueprintGraph (blueprintGraphToSchema g) none).nodes) := by
  have hrt : (schemaToBlueprintGraph (blueprintGraphToSchema g) none).nodes =
      buildSections (savedPositionsOf (blueprintGraphToSchema g) none)
        (blueprintGraphToSchema g).sections 0 LAYOUT_START_Y := rfl
  have hsections : (blueprintGraphToSchema g).sections =
      g.sectionNodes.map (fun s =>
        { title := s.title
          items := (sortByOrder (g.itemNodes.filter fun it =>
              decide (it.sectionId = s.id ∧
                it.sectionId ∈ g.sectionNodes.map (·.id)))).map (·.item) }) := rfl
  constructor
  · intro k s hk hid
    have hsmem : BlueprintNode.sec s ∈ g.nodes := by
      apply sec_mem_nodes.mp
      obtain ⟨hlt, hget⟩ := List.getElem?_eq_some_iff.mp hk
      exact hget ▸ List.getElem_mem hlt
    have hp := export_savedPositions g hnd hsmem
    have hk' : (blueprintGraphToSchema g).sections[k]? =
        some { title := s.title,
               items := (sortByOrder (g.itemNodes.filter fun it =>
                   decide (it.sectionId = s.id ∧
                     it.sectionId ∈ g.sectionNodes.map (·.id)))).map (·.item) } := by
      rw [hsections, List.getElem?_map, hk]
      rfl
    rw [hrt]
    have h0 : s = ⟨secId (0 + k), s.title, s.position⟩ := by
      rw [Nat.zero_add, ← hid]
    rw [h0]
    exact mem_buildSections_sec _ _ 0 LAYOUT_START_Y k _ hk' s.position
      (by rw [Nat.zero_add, ← hid]; exact hp)
  · intro n hn k s hk hsid
    obtain ⟨hid, hiid, hbtn⟩ := hitems n hn
    have hsmem : s ∈ g.sectionNodes := by
      obtain ⟨hlt, hget⟩ := List.getElem?_eq_some_iff.mp hk
      exact hget ▸ List.getElem_mem hlt
    have hidmem : s.id ∈ g.sectionNodes.map (·.id) := List.mem_map_of_mem _ hsmem
    have hk' : (blueprintGraphToSchema g).sections[k]? =
        some { title := s.title,
               items := (sortByOrder (g.itemNodes.filter fun it =>
                   decide (it.sectionId = s.id ∧
                     it.sectionId ∈ g.sectionNodes.map (·.id)))).map (·.item) } := by
      rw [hsections, List.getElem?_map, hk]
      rfl
    have hfilter : n ∈ g.itemNodes.filter (fun it =>
        decide (it.sectionId = s.id ∧ it.sectionId ∈ g.sectionNodes.map (·.id))) := by
      apply List.mem_filter.mpr
      refine ⟨item_mem_nodes.mpr hn, ?_⟩
      rw [decide_eq_true_eq]
      exact ⟨hsid.symm, hsid ▸ hidmem⟩
    have hinsort : n ∈ sortByOrder (g.itemNodes.filter fun it =>
        decide (it.sectionId = s.id ∧ it.sectionId ∈ g.sectionNodes.map (·.id))) :=
      ((sortByOrder_perm _).mem_iff).mpr hfilter
    have hinitems : n.item ∈ (sortByOrder (g.itemNodes.filter fun it =>
        decide (it.sectionId = s.id ∧
          it.sectionId ∈ g.sectionNodes.map (·.id)))).map (·.item) :=
      List.mem_map_of_mem _ hinsort
    have hp := export_savedPositions g hnd hn
    rw [hrt, show secId k = secId (0 + k) from by rw [Nat.zero_add], ← hiid]
    exact mem_buildSections_item _ _ 0 LAYOUT_START_Y k _ hk' n.item hinitems
      (hiid.symm ▸ hid) hbtn n.position (by rw [hiid]; exact hp)

/-- Witness for the claim C2 theorem: the round trip of `graphW` rebuilds
both its section node and its attached item node with the same ids,
payload and positions. -/
theorem graph_roundtrip_preserves_witness :
    BlueprintNode.sec ⟨str "section_0", str "T", ⟨0, 0⟩⟩ ∈
      (schemaToBlueprintGraph (blueprintGraphToSchema graphW) none).nodes ∧
    BlueprintNode.item ⟨str "a", secId 0, sampleItem (str "a") (str "button") none, ⟨7, 8⟩⟩ ∈
      (schemaToBlueprintGraph (blueprintGraphToSchema graphW) none).nodes := by
  have h := graph_roundtrip_preserves graphW (by decide) (by
    intro i hi
    rcases List.mem_cons.mp hi with h' | h'
    · exact BlueprintNode.noConfusion h'
    · rcases List.mem_cons.mp h' with h'' | h''
      · injection h'' with h3
        subst h3
        exact ⟨by decide, by decide, fun bs hbs => Option.noConfusion hbs⟩
      · simp at h'')
  exact ⟨h.1 0 ⟨str "section_0", str "T", ⟨0, 0⟩⟩ (by decide) (by decide),
    h.2 itemNodeW (by decide) 0 ⟨str "section_0", str "T", ⟨0, 0⟩⟩ (by decide) (by decide)⟩

end PulseSync
